import Mathlib

/-!
Verification of the OVS cleanup engine in `src/netplan_cli/cli/ovs.py`.

The Python code is shallowly embedded over `List Char` strings.  Every
external `ovs-vsctl` invocation is recorded as a `Cmd` in a trace:
`subprocess.check_call` (mutating) becomes `Cmd.call`,
`subprocess.check_output` (query) becomes `Cmd.output`, and
`subprocess.run` (the `br-exists` probe) becomes `Cmd.run`.

The OVSDB database itself is an external collaborator of the repository;
it is modelled from the spec (§4.2 "Database Client" and §6) as a `DB`
value: per-table row lists with a `name` and an `external-ids` map, the
`Open_vSwitch` singleton's map, and an opaque text oracle for the global
`get-*` commands.  `applyCall` gives the spec semantics of the mutating
commands the engine issues, and `listingText` renders the CSV listing the
engine parses, so that the two-phase reconciliation can be run as a state
machine and its trace inspected.
-/

/-! ### Pythonic string primitives -/

/-- Python strings, as lists of characters. -/
abbrev PyStr := List Char

/-- String literals for the model. -/
def str (s : String) : PyStr := s.toList

/-- Python `s.split(sep, maxsplit)` for a one-character separator `sep`. -/
def pySplitC (sep : Char) : Nat → PyStr → List PyStr
  | _, [] => [[]]
  | n, c :: cs =>
    if c = sep ∧ 0 < n then
      [] :: pySplitC sep (n - 1) cs
    else
      match pySplitC sep n cs with
      | [] => [[c]]
      | p :: ps => (c :: p) :: ps

/-- Python `s.split(sep)` (no maxsplit) for a one-character separator. -/
def splitAllC (sep : Char) : PyStr → List PyStr
  | [] => [[]]
  | c :: cs =>
    if c = sep then
      [] :: splitAllC sep cs
    else
      match splitAllC sep cs with
      | [] => [[c]]
      | p :: ps => (c :: p) :: ps

/-- Python substring containment `pat in s`. -/
def subList (pat : PyStr) : PyStr → Bool
  | [] => pat.isPrefixOf []
  | c :: cs => pat.isPrefixOf (c :: cs) || subList pat cs

/-- Python `s.startswith(pre)`. -/
def startsWithS (pre s : PyStr) : Bool := pre.isPrefixOf s

/-- Python `c in s` for a single character `c`. -/
def containsC (c : Char) (s : PyStr) : Bool := s.any (fun x => x = c)

/-- Python `s.strip(ch)` for a one-character strip set. -/
def stripC (ch : Char) (s : PyStr) : PyStr :=
  ((s.dropWhile (fun c => c = ch)).reverse.dropWhile (fun c => c = ch)).reverse

/-- Python `s.splitlines()`, restricted to the newline character. -/
def pySplitlines (s : PyStr) : List PyStr :=
  if s = [] then []
  else
    let parts := splitAllC '\n' s
    if parts.getLast? = some [] then parts.dropLast else parts

/-- Joins strings with a one-character separator (inverse of `splitAllC`). -/
def joinC (sep : Char) : List PyStr → PyStr
  | [] => []
  | [p] => p
  | p :: ps => p ++ sep :: joinC sep ps

/-! ### The fixed tables and constants of `ovs.py` -/

/-- `OVS_VSCTL_PATH` of `ovs.py`; the path discovery in `_ovs_vsctl_path` is
irrelevant plumbing, so the binary name stands for whichever path was found. -/
def OVS_VSCTL_PATH : PyStr := str "ovs-vsctl"

/-- The `DEFAULTS` dict of `ovs.py` (`DEFAULTS.get(column)`). -/
def DEFAULTS (column : PyStr) : Option PyStr :=
  if column = str "mcast_snooping_enable" then some (str "false")
  else if column = str "rstp_enable" then some (str "false")
  else none

/-- The `GLOBALS` dict of `ovs.py` (`GLOBALS.get(key, (None, None))`),
mapping a global set-command to its (delete, get) reversal pair. -/
def GLOBALS (key : PyStr) : Option (PyStr × PyStr) :=
  if key = str "set-ssl" then some (str "del-ssl", str "get-ssl")
  else if key = str "set-fail-mode" then some (str "del-fail-mode", str "get-fail-mode")
  else if key = str "set-controller" then some (str "del-controller", str "get-controller")
  else none

/-- One external `ovs-vsctl` invocation, tagged by the `subprocess`
function used: `check_call` mutates, `check_output` and `run` only query. -/
inductive Cmd where
  | call (args : List PyStr)
  | output (args : List PyStr)
  | run (args : List PyStr)
deriving DecidableEq

/-- A command mutates the database exactly when it is a `check_call`. -/
def isMutating : Cmd → Bool
  | .call _ => true
  | _ => false

/-- The ways a reconciliation run can abort: the two preflight exceptions of
`apply_ovs_cleanup`, Python `IndexError`/`ValueError` on string unpacking,
and the `Exception('Reset command unknown for:', key)` of `_del_global`. -/
inductive Err where
  | notInstalled
  | notRunning
  | indexError
  | valueError
  | unknownGlobal (key : PyStr)
deriving DecidableEq

/-! ### The database model (external collaborator) -/

/-- Modelled from the spec: a top-level object row, with its identity column
(`name`, or `_uuid` for Controller rows) and its `external-ids` map. -/
structure Row where
  name : PyStr
  extids : List (PyStr × PyStr)
deriving DecidableEq

/-- Modelled from the spec (§4.2): the state of the OVS database as far as the
core reads and mutates it — the four named tables, the `Open_vSwitch`
singleton's `external-ids`, and an opaque oracle giving the text printed by
the global `get-*` commands (`getGlobal`), which the engine only ever reads. -/
structure DB where
  port : List Row
  bridge : List Row
  interface : List Row
  controller : List Row
  ovs : List (PyStr × PyStr)
  globalText : List PyStr → PyStr

/-! ### The setting cleaner (`_del_col`, `_del_dict`, `_del_global`,
`clear_setting`) -/

/-- `_del_col` of `ovs.py`: reverse a scalar column assignment, resetting to a
registered mandatory default or removing the exact recorded value. -/
def _del_col (type iface column value : PyStr) : List Cmd :=
  match DEFAULTS column with
  | none =>
    [Cmd.call [OVS_VSCTL_PATH, str "remove", type, iface, column, value]]
  | some default =>
    if default ≠ [] ∧ default ≠ value then
      [Cmd.call [OVS_VSCTL_PATH, str "set", type, iface, column ++ '=' :: default]]
    else []

/-- `_del_dict` of `ovs.py`: remove one `key="value"` pair from a map column. -/
def _del_dict (type iface column key value : PyStr) : List Cmd :=
  [Cmd.call [OVS_VSCTL_PATH, str "remove", type, iface, column,
             key ++ '=' :: '"' :: value ++ ['"']]]

/-- The object argument used by `_del_global`: `iface = None` for the
SSL-family delete, otherwise the incoming object (Python truthiness of the
`iface` string is emptiness). -/
def globalIface (del_cmd iface : PyStr) : PyStr :=
  if del_cmd = str "del-ssl" then [] else iface

/-- The argv of a global get/delete command, appending the object argument
only when it is truthy. -/
def globalArgs (cmd iface2 : PyStr) : List PyStr :=
  [OVS_VSCTL_PATH, cmd] ++ (if iface2 ≠ [] then [iface2] else [])

/-- `_del_global` of `ovs.py`: reverse a global command.  The `get` output is
read from the database oracle; the delete is issued only when every
comma-separated token of the recorded value is still present in that output. -/
def _del_global (db : DB) (type iface key value : PyStr) : Option Err × List Cmd :=
  match GLOBALS key with
  | none => (some (Err.unknownGlobal key), [])
  | some (del_cmd, get_cmd) =>
    let iface2 := globalIface del_cmd iface
    let args_get := globalArgs get_cmd iface2
    let args_del := globalArgs del_cmd iface2
    let out := db.globalText args_get
    if (splitAllC ',' value).all (fun item => subList item out) then
      (none, [Cmd.output args_get, Cmd.call args_del])
    else
      (none, [Cmd.output args_get])

/-- The unconditional tag removal closing `clear_setting` (line 130 of
`ovs.py`), appended to the value-level commands when no exception was raised. -/
def finishTag (type iface setting : PyStr) : Option Err × List Cmd → Option Err × List Cmd
  | (some e, cs) => (some e, cs)
  | (none, cs) =>
    (none, cs ++ [Cmd.call [OVS_VSCTL_PATH, str "remove", type, iface,
                            str "external-ids", setting]])

/-- `clear_setting` of `ovs.py`: classify the tag key by splitting on `/`
(maxsplit 2) and dispatch to the matching handler, then remove the tag. -/
def clear_setting (db : DB) (type iface setting value : PyStr) : Option Err × List Cmd :=
  let split := pySplitC '/' 2 setting
  match split.get? 1 with
  | none => (some Err.indexError, [])
  | some col =>
    finishTag type iface setting
      (if col = str "global" ∧ 2 < split.length then
        _del_global db type iface (split.getD 2 []) value
      else if 2 < split.length then
        (none, _del_dict type iface col (split.getD 2 []) value)
      else
        (none, _del_col type iface col value))

/-- `is_ovs_interface` of `ovs.py`; a netdef is its `backend` attribute. -/
def is_ovs_interface (iface : PyStr) (netdefs : List (PyStr × PyStr)) : Bool :=
  match netdefs.lookup iface with
  | some backend => backend = str "OpenVSwitch"
  | none => false

/-! ### Spec semantics of the mutating commands -/

/-- Modelled from the spec (§4.2 `removeTag`/`removeMapEntry`): the pair
filter of `ovs-vsctl remove <t> <o> external-ids <arg>` — a bare key removes
that key, a `key="value"` argument removes exactly that pair. -/
def removeArgKeeps (arg : PyStr) (kv : PyStr × PyStr) : Bool :=
  if containsC '=' arg then
    match pySplitC '=' 1 arg with
    | [k, qv] => ¬(kv.1 = k ∧ kv.2 = stripC '"' qv)
    | _ => true
  else
    kv.1 ≠ arg

/-- Rewrites the `external-ids` of every row named `name`. -/
def updTable (rows : List Row) (name : PyStr)
    (f : List (PyStr × PyStr) → List (PyStr × PyStr)) : List Row :=
  rows.map (fun r => if r.name = name then { r with extids := f r.extids } else r)

/-- Routes an `external-ids` rewrite to the table a command names. -/
def updExtids (db : DB) (table name : PyStr)
    (f : List (PyStr × PyStr) → List (PyStr × PyStr)) : DB :=
  if table = str "Open_vSwitch" then { db with ovs := f db.ovs }
  else if table = str "Port" then { db with port := updTable db.port name f }
  else if table = str "Bridge" then { db with bridge := updTable db.bridge name f }
  else if table = str "Interface" then { db with interface := updTable db.interface name f }
  else if table = str "Controller" then { db with controller := updTable db.controller name f }
  else db

/-- Deletes every row named `name` from a table. -/
def delName (rows : List Row) (name : PyStr) : List Row :=
  rows.filter (fun r => r.name ≠ name)

/-- Modelled from the spec (§4.2): the database-side effect of one mutating
`ovs-vsctl` call.  `del-port`/`del-br`/`del-bond-iface` delete the named
object (`del-br` also tears down the same-named fake-bridge port and
interface rows); `remove … external-ids …` filters the tag map.  Scalar
`set`/`remove` on other columns and the global `del-*` commands change state
the model does not read back, so they leave `DB` unchanged. -/
def applyCall (db : DB) (args : List PyStr) : DB :=
  match args with
  | [_, op, table, name, column, v] =>
    if op = str "remove" ∧ column = str "external-ids" then
      updExtids db table name (fun l => l.filter (removeArgKeeps v))
    else db
  | [_, op, del, name] =>
    if op = str "--if-exists" then
      if del = str "del-port" then { db with port := delName db.port name }
      else if del = str "del-br" then
        { db with port := delName db.port name, bridge := delName db.bridge name,
                  interface := delName db.interface name }
      else if del = str "del-bond-iface" then
        { db with interface := delName db.interface name }
      else db
    else db
  | _ => db

/-- Only `check_call` commands mutate the database. -/
def applyCmd (db : DB) : Cmd → DB
  | Cmd.call args => applyCall db args
  | _ => db

/-- Applies a trace of commands in order. -/
def applyCmds (db : DB) (cs : List Cmd) : DB := cs.foldl applyCmd db

/-! ### Spec rendering of the CSV listings -/

/-- One `k=v` token of a rendered `external-ids` blob. -/
def entryOf (kv : PyStr × PyStr) : PyStr := kv.1 ++ '=' :: kv.2

/-- Modelled from the spec (§6): the space-joined `external-ids` blob. -/
def serializeExtids (l : List (PyStr × PyStr)) : PyStr :=
  joinC ' ' (l.map entryOf)

/-- Modelled from the spec (§6): one CSV row of `list <table>` with columns
`name,external-ids` — identity column, comma, double-quoted tag blob. -/
def serializeLine (r : Row) : PyStr :=
  r.name ++ ',' :: '"' :: serializeExtids r.extids ++ ['"']

/-- Modelled from the spec (§6): the single CSV row of the `Open_vSwitch`
singleton, whose only requested column is `external-ids`. -/
def serializeOvsLine (l : List (PyStr × PyStr)) : PyStr :=
  '"' :: serializeExtids l ++ ['"']

/-- The rows of a named table. -/
def tableRows (db : DB) (t : PyStr) : List Row :=
  if t = str "Port" then db.port
  else if t = str "Bridge" then db.bridge
  else if t = str "Interface" then db.interface
  else if t = str "Controller" then db.controller
  else []

/-- Modelled from the spec (§6): the stdout of `ovs-vsctl … list <t>`,
newline-joined CSV rows. -/
def listingText (db : DB) (t : PyStr) : PyStr :=
  if t = str "Open_vSwitch" then serializeOvsLine db.ovs
  else joinC '\n' ((tableRows db t).map serializeLine)

/-- Modelled from the spec (§4.2): `ovs-vsctl br-exists <name>` exits 0
exactly when a bridge of that name exists. -/
def brExists (db : DB) (name : PyStr) : Bool :=
  (db.bridge.map Row.name).contains name

/-- The argv of the `list` query issued by both phases of
`apply_ovs_cleanup`. -/
def listCmd (cols t : PyStr) : List PyStr :=
  [OVS_VSCTL_PATH, str "--columns=" ++ cols, str "-f", str "csv", str "-d", str "bare",
   str "--no-headings", str "list", t]

/-! ### Phase 1 — stale top-level object removal -/

/-- One line of a phase-1 listing (the body of the inner loop at lines
167–176 of `ovs.py`): delete the object when it is tagged `netplan=true` and
absent from the declared OVS interfaces. -/
def phase1_line (db : DB) (ovs_ifaces : List PyStr) (tname tdel line : PyStr) : List Cmd :=
  if subList (str "netplan=true") line then
    let iface := (splitAllC ',' line).headD []
    if ovs_ifaces.contains iface then []
    else if tname = str "Interface" then
      if brExists db iface then
        [Cmd.run [OVS_VSCTL_PATH, str "br-exists", iface],
         Cmd.call [OVS_VSCTL_PATH, str "--if-exists", tdel, iface]]
      else
        [Cmd.run [OVS_VSCTL_PATH, str "br-exists", iface],
         Cmd.call [OVS_VSCTL_PATH, str "--if-exists", str "del-bond-iface", iface]]
    else
      [Cmd.call [OVS_VSCTL_PATH, str "--if-exists", tdel, iface]]
  else []

/-- Folds `phase1_line` over a listing, applying each command to the
database as the external process would. -/
def phase1_lines (ovs_ifaces : List PyStr) (tname tdel : PyStr) :
    DB → List PyStr → List Cmd × DB
  | db, [] => ([], db)
  | db, l :: ls =>
    let cs := phase1_line db ovs_ifaces tname tdel l
    let rest := phase1_lines ovs_ifaces tname tdel (applyCmds db cs) ls
    (cs ++ rest.1, rest.2)

/-- One phase-1 table pass: list the table, then process each line. -/
def phase1_table (ovs_ifaces : List PyStr) (db : DB) (tname tdel : PyStr) :
    List Cmd × DB :=
  let r := phase1_lines ovs_ifaces tname tdel db (pySplitlines (listingText db tname))
  (Cmd.output (listCmd (str "name,external-ids") tname) :: r.1, r.2)

/-- Phase 1 of `apply_ovs_cleanup` (lines 163–176): the fixed
Port → Bridge → Interface sweep. -/
def phase1 (ovs_ifaces : List PyStr) (db : DB) : List Cmd × DB :=
  let p := phase1_table ovs_ifaces db (str "Port") (str "del-port")
  let b := phase1_table ovs_ifaces p.2 (str "Bridge") (str "del-br")
  let i := phase1_table ovs_ifaces b.2 (str "Interface") (str "del-br")
  (p.1 ++ b.1 ++ i.1, i.2)

/-! ### Phase 2 — tagged-setting cleanup on survivors -/

/-- One `external-ids` token (lines 197–200 of `ovs.py`): tokens prefixed
`netplan/` and containing `=` are split once on `=` and cleared. -/
def phase2_entry (db : DB) (t iface entry : PyStr) : Option Err × List Cmd :=
  if startsWithS (str "netplan/") entry && containsC '=' entry then
    match pySplitC '=' 1 entry with
    | [setting, val] => clear_setting db t iface setting val
    | _ => (some Err.valueError, [])
  else (none, [])

/-- Folds `phase2_entry` over the tokens of one row, threading the database
and aborting on the first raised exception. -/
def phase2_entries (t iface : PyStr) : DB → List PyStr → Option Err × List Cmd × DB
  | db, [] => (none, [], db)
  | db, e :: es =>
    match phase2_entry db t iface e with
    | (some err, cs) => (some err, cs, applyCmds db cs)
    | (none, cs) =>
      let rest := phase2_entries t iface (applyCmds db cs) es
      (rest.1, cs ++ rest.2.1, rest.2.2)

/-- One line of a phase-2 listing (lines 188–200): rows whose text mentions
`netplan/` are split into the identity column and the quoted tag blob, and
each whitespace token is examined. -/
def phase2_line (db : DB) (t line : PyStr) : Option Err × List Cmd × DB :=
  if subList (str "netplan/") line then
    if t = str "Open_vSwitch" then
      phase2_entries t (str ".") db (splitAllC ' ' (stripC '"' line))
    else
      match pySplitC ',' 1 line with
      | [iface, extids] => phase2_entries t iface db (splitAllC ' ' (stripC '"' extids))
      | _ => (some Err.valueError, [], db)
  else (none, [], db)

/-- Folds `phase2_line` over a listing. -/
def phase2_lines (t : PyStr) : DB → List PyStr → Option Err × List Cmd × DB
  | db, [] => (none, [], db)
  | db, l :: ls =>
    match phase2_line db t l with
    | (some err, cs, db2) => (some err, cs, db2)
    | (none, cs, db2) =>
      let rest := phase2_lines t db2 ls
      (rest.1, cs ++ rest.2.1, rest.2.2)

/-- The identity/tag columns requested per table in phase 2. -/
def colsFor (t : PyStr) : PyStr :=
  if t = str "Open_vSwitch" then str "external-ids"
  else if t = str "Controller" then str "_uuid,external-ids"
  else str "name,external-ids"

/-- One phase-2 table pass: list the table, then process each line. -/
def phase2_table (db : DB) (t : PyStr) : Option Err × List Cmd × DB :=
  let r := phase2_lines t db (pySplitlines (listingText db t))
  (r.1, Cmd.output (listCmd (colsFor t) t) :: r.2.1, r.2.2)

/-- Folds `phase2_table` over the five phase-2 tables. -/
def phase2_tables : DB → List PyStr → Option Err × List Cmd × DB
  | db, [] => (none, [], db)
  | db, t :: ts =>
    match phase2_table db t with
    | (some err, cs, db2) => (some err, cs, db2)
    | (none, cs, db2) =>
      let rest := phase2_tables db2 ts
      (rest.1, cs ++ rest.2.1, rest.2.2)

/-- The outcome of a reconciliation run: the exception it raised (if any),
the full command trace up to that point, and the final database state. -/
structure Res where
  err : Option Err
  trace : List Cmd
  db : DB

/-- The `ovs_ifaces` set computed at the start of `apply_ovs_cleanup`. -/
def ovsIfaces (netdefs : List (PyStr × PyStr)) : List PyStr :=
  (netdefs.map Prod.fst).filter (fun i => is_ovs_interface i netdefs)

/-- The five tables scanned by phase 2, in order. -/
def TABLES : List PyStr :=
  [str "Port", str "Bridge", str "Interface", str "Open_vSwitch", str "Controller"]

/-- `apply_ovs_cleanup` of `ovs.py`: preflight probes, declared-config
filtering, then phase 1 and phase 2.  `installed`/`active` are the results
of the `_ovs_installed`/`_ovs_active` probes, and `netdefs` is the parsed
`config_manager.netdefs` mapping (name ↦ backend). -/
def apply_ovs_cleanup (installed active : Bool) (netdefs : List (PyStr × PyStr))
    (db : DB) : Res :=
  if ¬ installed then ⟨some Err.notInstalled, [], db⟩
  else if ¬ active then ⟨some Err.notRunning, [], db⟩
  else
    let ovs_ifaces := ovsIfaces netdefs
    let p1 := phase1 ovs_ifaces db
    let p2 := phase2_tables p1.2 TABLES
    ⟨p2.1, p1.1 ++ p2.2.1, p2.2.2⟩

/-! ### Well-formedness and cleanliness predicates -/

/-- A character that cannot collide with the CSV/blob delimiters. -/
def goodChar (c : Char) : Bool :=
  ¬(c = ' ' ∨ c = '"' ∨ c = ',' ∨ c = '\n' ∨ c = '\r' ∨ c = '=')

/-- A delimiter-free string. -/
def goodStr (s : PyStr) : Bool := s.all goodChar

/-- A well-formed `external-ids` pair. -/
def wfPair (kv : PyStr × PyStr) : Bool := goodStr kv.1 && goodStr kv.2

/-- A well-formed row: delimiter-free name and tag map. -/
def wfRow (r : Row) : Bool := goodStr r.name && r.extids.all wfPair

/-- A database whose identifiers, keys and values are delimiter-free, so
that its CSV listings parse back to it. -/
def wfDB (db : DB) : Prop :=
  (∀ r ∈ db.port, wfRow r = true) ∧ (∀ r ∈ db.bridge, wfRow r = true) ∧
  (∀ r ∈ db.interface, wfRow r = true) ∧ (∀ r ∈ db.controller, wfRow r = true) ∧
  (∀ kv ∈ db.ovs, wfPair kv = true)

/-- The `netplan=true` ownership marker looked for by phase 1. -/
def marker : PyStr := str "netplan=true"

/-- The `netplan/` tag prefix looked for by phase 2. -/
def npfx : PyStr := str "netplan/"

/-- A row is phase-1 clean when its rendered line carries the marker text
only if the object is part of the declared OVS config. -/
def rowClean1 (ifaces : List PyStr) (r : Row) : Prop :=
  subList marker (serializeLine r) = true → ifaces.contains r.name = true

/-- A row is phase-2 clean when no tag key carries the `netplan/` prefix. -/
def rowClean2 (r : Row) : Prop :=
  ∀ kv ∈ r.extids, startsWithS npfx kv.1 = false

/-- Phase-2 cleanliness for the `Open_vSwitch` singleton map. -/
def pairsClean2 (l : List (PyStr × PyStr)) : Prop :=
  ∀ kv ∈ l, startsWithS npfx kv.1 = false

/-- No row named `n` still stores a tag under key `k`. -/
def tableNoKey (rows : List Row) (n k : PyStr) : Prop :=
  ∀ r ∈ rows, r.name = n → ∀ kv ∈ r.extids, kv.1 ≠ k

/-- A database on which a reconciliation run has nothing left to mutate. -/
def dbClean (ifaces : List PyStr) (db : DB) : Prop :=
  (∀ r ∈ db.port, rowClean1 ifaces r) ∧ (∀ r ∈ db.bridge, rowClean1 ifaces r) ∧
  (∀ r ∈ db.interface, rowClean1 ifaces r) ∧
  (∀ r ∈ db.port, rowClean2 r) ∧ (∀ r ∈ db.bridge, rowClean2 r) ∧
  (∀ r ∈ db.interface, rowClean2 r) ∧ (∀ r ∈ db.controller, rowClean2 r) ∧
  pairsClean2 db.ovs

/-- Row refinement: same object, possibly fewer tags. -/
def rowSub (a b : Row) : Prop :=
  a.name = b.name ∧ ∀ kv ∈ a.extids, kv ∈ b.extids

/-- Table refinement: every surviving row refines a row it descends from. -/
def tableSub (a b : List Row) : Prop :=
  ∀ r ∈ a, ∃ r2 ∈ b, rowSub r r2

/-- Database refinement: the engine's commands only delete rows and remove
tag pairs, so any later state refines any earlier one. -/
def dbSub (a b : DB) : Prop :=
  tableSub a.port b.port ∧ tableSub a.bridge b.bridge ∧
  tableSub a.interface b.interface ∧ tableSub a.controller b.controller ∧
  (∀ kv ∈ a.ovs, kv ∈ b.ovs) ∧ a.globalText = b.globalText

/-! ### Concrete databases for the closed witnesses -/

/-- The empty database. -/
def db0 : DB := ⟨[], [], [], [], [], fun _ => []⟩

/-- A database whose global `get` commands always print `a`. -/
def dbG : DB := ⟨[], [], [], [], [], fun _ => str "a"⟩

/-- A database whose single port lacks any `netplan=true` tag entry, yet
whose rendered line contains `netplan=true` as a substring. -/
def dbC1 : DB :=
  ⟨[⟨str "eth0", [(str "xnetplan", str "truez")]⟩], [], [], [], [], fun _ => []⟩

/-- A database exercising both phases: a stale tagged port, a surviving
tagged bridge with a scalar tag, and a global tag on the singleton. -/
def dbW : DB :=
  ⟨[⟨str "p1", [(str "netplan", str "true")]⟩],
   [⟨str "br0", [(str "netplan", str "true"), (str "netplan/rstp_enable", str "true")]⟩],
   [], [],
   [(str "netplan/global/set-ssl", str "key.pem")],
   fun _ => str "key.pem"⟩

/-- A database with a stale bridge owning a stale port and a stale
fake-bridge interface, for the phase-1 ordering witness. -/
def db7 : DB :=
  ⟨[⟨str "p1", [(str "netplan", str "true")]⟩],
   [⟨str "br1", [(str "netplan", str "true")]⟩],
   [⟨str "vlan9", [(str "netplan", str "true")]⟩],
   [], [], fun _ => []⟩

/-! ### Lemmas: the substring test and infixes -/

theorem subList_iff (P s : PyStr) : subList P s = true ↔ P <:+: s := by
  induction s with
  | nil =>
    simp only [subList, List.isPrefixOf_iff_prefix]
    constructor
    · intro h; exact h.isInfix
    · intro h
      rcases List.eq_nil_of_infix_nil h with rfl
      exact List.prefix_refl []
  | cons c cs ih =>
    simp only [subList, Bool.or_eq_true, List.isPrefixOf_iff_prefix, ih]
    constructor
    · rintro (h | h)
      · exact List.infix_cons_iff.mpr (Or.inl h)
      · exact List.infix_cons_iff.mpr (Or.inr h)
    · intro h
      exact List.infix_cons_iff.mp h

theorem sub_of_not_mem (P s : PyStr) (c : Char) (hc : c ∈ P) (hs : c ∉ s) :
    subList P s = false := by
  rw [Bool.eq_false_iff]
  intro h
  exact hs (((subList_iff P s).mp h).subset hc)

theorem prefix_through_sep (P : PyStr) (c : Char) (hc : c ∉ P) (w z : PyStr) :
    P <+: w ++ c :: z ↔ P <+: w := by
  induction P generalizing w with
  | nil => simp
  | cons p P ih =>
    cases w with
    | nil =>
      simp only [List.nil_append, List.cons_prefix_cons]
      constructor
      · rintro ⟨rfl, -⟩; exact absurd (List.mem_cons_self p P) hc
      · intro h; exact absurd h (by simp)
    | cons a w =>
      simp only [List.cons_append, List.cons_prefix_cons]
      have hc2 : c ∉ P := fun hm => hc (List.mem_cons_of_mem _ hm)
      constructor
      · rintro ⟨rfl, h⟩; exact ⟨rfl, (ih hc2 w).mp h⟩
      · rintro ⟨rfl, h⟩; exact ⟨rfl, (ih hc2 w).mpr h⟩

theorem infix_through_sep (P : PyStr) (c : Char) (hc : c ∉ P) (x y : PyStr) :
    P <:+: x ++ c :: y ↔ P <:+: x ∨ P <:+: y := by
  induction x with
  | nil =>
    rw [List.nil_append, List.infix_cons_iff]
    constructor
    · rintro (h | h)
      · rcases P with _ | ⟨p, P⟩
        · exact Or.inl List.nil_infix
        · rcases List.cons_prefix_cons.mp h with ⟨rfl, -⟩
          exact absurd (List.mem_cons_self p P) hc
      · exact Or.inr h
    · rintro (h | h)
      · rcases List.eq_nil_of_infix_nil h with rfl
        exact Or.inl List.nil_prefix
      · exact Or.inr h
  | cons a x ih =>
    constructor
    · intro h
      rw [List.cons_append, List.infix_cons_iff] at h
      rcases h with h | h
      · rw [← List.cons_append, prefix_through_sep P c hc (a :: x) y] at h
        exact Or.inl h.isInfix
      · rcases ih.mp h with h | h
        · exact Or.inl (List.infix_cons_iff.mpr (Or.inr h))
        · exact Or.inr h
    · intro h
      rw [List.cons_append, List.infix_cons_iff]
      rcases h with h | h
      · rcases List.infix_cons_iff.mp h with h | h
        · exact Or.inl (by rw [← List.cons_append, prefix_through_sep P c hc (a :: x) y]; exact h)
        · exact Or.inr (ih.mpr (Or.inl h))
      · exact Or.inr (ih.mpr (Or.inr h))

theorem sub_append_sep (P : PyStr) (c : Char) (hc : c ∉ P) (x y : PyStr) :
    subList P (x ++ c :: y) = (subList P x || subList P y) := by
  rw [Bool.eq_iff_iff, Bool.or_eq_true, subList_iff, subList_iff, subList_iff]
  exact infix_through_sep P c hc x y

/-! ### Lemmas: splitting and joining -/

theorem pySplitC_ne_nil (sep : Char) (n : Nat) (s : PyStr) : pySplitC sep n s ≠ [] := by
  cases s with
  | nil => simp [pySplitC]
  | cons c cs =>
    rw [pySplitC]
    split
    · simp
    · rcases h : pySplitC sep n cs with _ | ⟨p, ps⟩ <;> simp

theorem pySplitC_zero (sep : Char) (s : PyStr) : pySplitC sep 0 s = [s] := by
  induction s with
  | nil => rfl
  | cons c cs ih => rw [pySplitC, if_neg (by simp), ih]

theorem pySplitC_no_sep (sep : Char) (n : Nat) (s : PyStr) (h : sep ∉ s) :
    pySplitC sep n s = [s] := by
  induction s with
  | nil => rfl
  | cons c cs ih =>
    rw [pySplitC, if_neg (by rintro ⟨rfl, -⟩; exact h (List.mem_cons_self c cs)),
        ih (fun hm => h (List.mem_cons_of_mem _ hm))]

theorem pySplitC_sep_cons (sep : Char) (n : Nat) (a b : PyStr) (ha : sep ∉ a) (hn : 0 < n) :
    pySplitC sep n (a ++ sep :: b) = a :: pySplitC sep (n - 1) b := by
  induction a with
  | nil => rw [List.nil_append, pySplitC, if_pos ⟨rfl, hn⟩]
  | cons c cs ih =>
    rw [List.cons_append, pySplitC,
        if_neg (by rintro ⟨rfl, -⟩; exact ha (List.mem_cons_self c cs)),
        ih (fun hm => ha (List.mem_cons_of_mem _ hm))]

theorem pySplitC_one_eq (a b : PyStr) (c : Char) (ha : c ∉ a) :
    pySplitC c 1 (a ++ c :: b) = [a, b] := by
  rw [pySplitC_sep_cons c 1 a b ha (by norm_num)]
  norm_num [pySplitC_zero]

theorem pySplitC_length_le (sep : Char) (n : Nat) (s : PyStr) :
    (pySplitC sep n s).length ≤ n + 1 := by
  induction s generalizing n with
  | nil => simp [pySplitC]
  | cons c cs ih =>
    rw [pySplitC]
    split
    · rename_i h
      have h1 := ih (n - 1)
      have h2 : n - 1 + 1 ≤ n := by omega
      simpa using Nat.le_trans h1 (by omega)
    · rcases h : pySplitC sep n cs with _ | ⟨p, ps⟩
      · simp
      · have := ih n
        rw [h] at this
        simpa using this

theorem pySplitC_length_ge_two (sep : Char) (n : Nat) (s : PyStr)
    (hc : containsC sep s = true) (hn : 0 < n) : 2 ≤ (pySplitC sep n s).length := by
  induction s generalizing n with
  | nil => simp [containsC] at hc
  | cons c cs ih =>
    rw [pySplitC]
    split
    · have := pySplitC_ne_nil sep (n - 1) cs
      rcases h : pySplitC sep (n - 1) cs with _ | ⟨p, ps⟩
      · exact absurd h this
      · simp
    · rename_i hne
      have hcs : containsC sep cs = true := by
        rcases (by simpa [containsC] using hc : c = sep ∨ containsC sep cs = true) with rfl | h
        · exact absurd ⟨rfl, hn⟩ hne
        · exact h
      have := ih cs.length  -- dummy to please nothing
      rcases h : pySplitC sep n cs with _ | ⟨p, ps⟩
      · exact absurd h (pySplitC_ne_nil sep n cs)
      · have h2 := ih n hcs hn
        rw [h] at h2
        simpa using h2

theorem splitAllC_ne_nil (sep : Char) (s : PyStr) : splitAllC sep s ≠ [] := by
  cases s with
  | nil => simp [splitAllC]
  | cons c cs =>
    rw [splitAllC]
    split
    · simp
    · rcases h : splitAllC sep cs with _ | ⟨p, ps⟩ <;> simp

theorem splitAllC_no_sep (sep : Char) (s : PyStr) (h : sep ∉ s) :
    splitAllC sep s = [s] := by
  induction s with
  | nil => rfl
  | cons c cs ih =>
    rw [splitAllC, if_neg (by rintro rfl; exact h (List.mem_cons_self c cs)),
        ih (fun hm => h (List.mem_cons_of_mem _ hm))]

theorem splitAllC_sep_cons (sep : Char) (a b : PyStr) (ha : sep ∉ a) :
    splitAllC sep (a ++ sep :: b) = a :: splitAllC sep b := by
  induction a with
  | nil => rw [List.nil_append, splitAllC, if_pos rfl]
  | cons c cs ih =>
    rw [List.cons_append, splitAllC,
        if_neg (by rintro rfl; exact ha (List.mem_cons_self c cs)),
        ih (fun hm => ha (List.mem_cons_of_mem _ hm))]

theorem joinC_cons_cons (sep : Char) (p q : PyStr) (qs : List PyStr) :
    joinC sep (p :: q :: qs) = p ++ sep :: joinC sep (q :: qs) := rfl

theorem splitAllC_joinC (sep : Char) (parts : List PyStr) (hne : parts ≠ [])
    (hfree : ∀ p ∈ parts, sep ∉ p) : splitAllC sep (joinC sep parts) = parts := by
  induction parts with
  | nil => exact absurd rfl hne
  | cons p ps ih =>
    cases ps with
    | nil => exact splitAllC_no_sep sep p (hfree p (List.mem_cons_self p []))
    | cons q qs =>
      rw [joinC_cons_cons, splitAllC_sep_cons sep p _ (hfree p (List.mem_cons_self p _)),
          ih (by simp) (fun x hx => hfree x (List.mem_cons_of_mem _ hx))]

theorem joinC_eq_nil_iff (sep : Char) (parts : List PyStr) (hne : parts ≠ [])
    (hpne : ∀ p ∈ parts, p ≠ []) : joinC sep parts ≠ [] := by
  rcases parts with _ | ⟨p, ps⟩
  · exact absurd rfl hne
  · rcases ps with _ | ⟨q, qs⟩
    · exact hpne p (List.mem_cons_self p [])
    · rw [joinC_cons_cons]
      rcases hp : p with _ | ⟨c, cs⟩ <;> simp

theorem pySplitlines_joinC (lines : List PyStr)
    (h : ∀ l ∈ lines, l ≠ [] ∧ '\n' ∉ l) :
    pySplitlines (joinC '\n' lines) = lines := by
  rcases hl : lines with _ | ⟨l, ls⟩
  · rfl
  · rw [pySplitlines,
        if_neg (joinC_eq_nil_iff '\n' (l :: ls) (by simp) (fun p hp => ((hl ▸ h) p hp).1))]
    have hsplit : splitAllC '\n' (joinC '\n' (l :: ls)) = l :: ls :=
      splitAllC_joinC '\n' (l :: ls) (by simp) (fun p hp => ((hl ▸ h) p hp).2)
    rw [hsplit]
    have hlast : (l :: ls).getLast? ≠ some [] := by
      intro hcontra
      have hx : ([] : PyStr) ∈ (l :: ls).getLast? := Option.mem_def.mpr hcontra
      rcases List.mem_getLast?_eq_getLast hx with ⟨hne2, heq⟩
      have hmem := List.getLast_mem hne2
      rw [← heq] at hmem
      exact ((hl ▸ h) [] hmem).1 rfl
    rw [if_neg hlast]

theorem dropWhile_no_quote (l : PyStr) (h : '"' ∉ l) :
    List.dropWhile (fun x => x = '"') l = l := by
  cases l with
  | nil => rfl
  | cons c cs =>
    refine List.dropWhile_cons_of_neg ?_
    simp only [decide_eq_true_eq]
    rintro rfl
    exact h (List.mem_cons_self _ _)

theorem stripC_quotes (blob : PyStr) (h : '"' ∉ blob) :
    stripC '"' ('"' :: blob ++ ['"']) = blob := by
  cases blob with
  | nil => rfl
  | cons c cs =>
    have hmem : '"' ∉ c :: cs := h
    have h1 : List.dropWhile (fun x => x = '"') ('"' :: ((c :: cs) ++ ['"'])) =
        (c :: cs) ++ ['"'] := by
      rw [List.dropWhile_cons_of_pos (by simp), List.cons_append]
      refine List.dropWhile_cons_of_neg ?_
      simp only [decide_eq_true_eq]
      rintro rfl
      exact hmem (List.mem_cons_self _ _)
    show ((List.dropWhile (fun x => x = '"')
        ('"' :: ((c :: cs) ++ ['"']))).reverse.dropWhile (fun x => x = '"')).reverse = c :: cs
    rw [h1, List.reverse_append, List.reverse_singleton, List.singleton_append,
        List.dropWhile_cons_of_pos (by simp),
        dropWhile_no_quote (c :: cs).reverse (by simp only [List.mem_reverse]; exact hmem),
        List.reverse_reverse]

/-! ### Lemmas: aligning a pattern containing a unique separator -/

theorem unique_sep_split (c : Char) (a b a2 b2 : PyStr) (h : a ++ c :: b = a2 ++ c :: b2)
    (ha : c ∉ a) (ha2 : c ∉ a2) : a = a2 ∧ b = b2 := by
  induction a generalizing a2 with
  | nil =>
    cases a2 with
    | nil => simpa using h
    | cons x xs =>
      rw [List.nil_append, List.cons_append] at h
      rcases List.cons_eq_cons.mp h with ⟨rfl, -⟩
      exact absurd (List.mem_cons_self _ _) ha2
  | cons x xs ih =>
    cases a2 with
    | nil =>
      rw [List.nil_append, List.cons_append] at h
      rcases List.cons_eq_cons.mp h with ⟨rfl, -⟩
      exact absurd (List.mem_cons_self _ _) ha
    | cons y ys =>
      rw [List.cons_append, List.cons_append] at h
      rcases List.cons_eq_cons.mp h with ⟨rfl, h2⟩
      rcases ih ys h2 (fun hm => ha (List.mem_cons_of_mem _ hm))
        (fun hm => ha2 (List.mem_cons_of_mem _ hm)) with ⟨rfl, rfl⟩
      exact ⟨rfl, rfl⟩

theorem align_infix (c : Char) (P1 P2 k v : PyStr)
    (h1 : c ∉ P1) (h2 : c ∉ P2) (hk : c ∉ k) (hv : c ∉ v) :
    (P1 ++ c :: P2) <:+: (k ++ c :: v) ↔ P1 <:+ k ∧ P2 <+: v := by
  constructor
  · rintro ⟨s, t, hst⟩
    have hcount : (s ++ (P1 ++ c :: P2) ++ t).count c = (k ++ c :: v).count c := by rw [hst]
    rw [List.count_append, List.count_append, List.count_append, List.count_cons_self,
        List.count_append, List.count_cons_self] at hcount
    rw [List.count_eq_zero.mpr h1, List.count_eq_zero.mpr h2, List.count_eq_zero.mpr hk,
        List.count_eq_zero.mpr hv] at hcount
    have hs : s.count c = 0 ∧ t.count c = 0 := by omega
    have hsf : c ∉ s := List.count_eq_zero.mp hs.1
    have htf : c ∉ t := List.count_eq_zero.mp hs.2
    have heq : (s ++ P1) ++ c :: (P2 ++ t) = k ++ c :: v := by
      rw [← hst]; simp
    have hsP1 : c ∉ s ++ P1 := by
      simp only [List.mem_append]
      rintro (hm | hm)
      · exact hsf hm
      · exact h1 hm
    rcases unique_sep_split c (s ++ P1) (P2 ++ t) k v heq hsP1 hk with ⟨hk2, hv2⟩
    exact ⟨⟨s, hk2⟩, ⟨t, hv2⟩⟩
  · rintro ⟨⟨s, hs⟩, ⟨t, ht⟩⟩
    exact ⟨s, t, by rw [← hs, ← ht]; simp⟩

theorem align_sub (c : Char) (P1 P2 k v : PyStr)
    (h1 : c ∉ P1) (h2 : c ∉ P2) (hk : c ∉ k) (hv : c ∉ v) :
    subList (P1 ++ c :: P2) (k ++ c :: v) = true ↔ P1 <:+ k ∧ P2 <+: v := by
  rw [subList_iff]
  exact align_infix c P1 P2 k v h1 h2 hk hv

/-! ### Lemmas: delimiter-free strings -/

theorem goodStr_not_mem (s : PyStr) (c : Char) (hs : goodStr s = true)
    (hc : goodChar c = false) : c ∉ s := by
  intro hm
  rw [goodStr, List.all_eq_true] at hs
  rw [hs c hm] at hc
  exact Bool.true_eq_false.mp hc

theorem sub_joinC_iff (P : PyStr) (c : Char) (parts : List PyStr)
    (hP : P ≠ []) (hc : c ∉ P) :
    subList P (joinC c parts) = true ↔ ∃ p ∈ parts, subList P p = true := by
  induction parts with
  | nil =>
    rcases P with _ | ⟨x, xs⟩
    · exact absurd rfl hP
    · simp [joinC, subList, List.isPrefixOf]
  | cons p ps ih =>
    cases ps with
    | nil => simp [joinC]
    | cons q qs =>
      rw [joinC_cons_cons, sub_append_sep P c hc, Bool.or_eq_true, ih]
      constructor
      · rintro (h | ⟨x, hx, hsub⟩)
        · exact ⟨p, List.mem_cons_self _ _, h⟩
        · exact ⟨x, List.mem_cons_of_mem _ hx, hsub⟩
      · rintro ⟨x, hx, hsub⟩
        rcases List.mem_cons.mp hx with rfl | hx2
        · exact Or.inl hsub
        · exact Or.inr ⟨x, hx2, hsub⟩

/-! ### Lemmas: the rendered line and the ownership markers -/

theorem wfRow_name (r : Row) (h : wfRow r = true) : goodStr r.name = true := by
  rw [wfRow, Bool.and_eq_true] at h
  exact h.1

theorem wfRow_pair (r : Row) (kv : PyStr × PyStr) (h : wfRow r = true) (hm : kv ∈ r.extids) :
    goodStr kv.1 = true ∧ goodStr kv.2 = true := by
  rw [wfRow, Bool.and_eq_true] at h
  have h2 := h.2
  rw [List.all_eq_true] at h2
  have := h2 kv hm
  rw [wfPair, Bool.and_eq_true] at this
  exact this

theorem serializeLine_eq (r : Row) :
    serializeLine r =
      r.name ++ ',' :: (('"' :: serializeExtids r.extids) ++ ['"']) := by
  simp [serializeLine]

theorem blob_infix_line (r : Row) : serializeExtids r.extids <:+: serializeLine r :=
  ⟨r.name ++ [',', '"'], ['"'], by simp [serializeLine]⟩

theorem mem_joinC_infix (c : Char) (parts : List PyStr) (p : PyStr) (hp : p ∈ parts) :
    p <:+: joinC c parts := by
  induction parts with
  | nil => exact absurd hp (List.not_mem_nil p)
  | cons q qs ih =>
    cases qs with
    | nil =>
      rcases List.mem_cons.mp hp with rfl | habs
      · exact List.infix_refl p
      · exact absurd habs (List.not_mem_nil p)
    | cons w ws =>
      rw [joinC_cons_cons]
      rcases List.mem_cons.mp hp with rfl | hmem
      · exact (List.prefix_append p (c :: joinC c (w :: ws))).isInfix
      · exact (ih hmem).trans
          (((List.suffix_cons c (joinC c (w :: ws))).trans
            (List.suffix_append q (c :: joinC c (w :: ws)))).isInfix)

theorem marker_decomp : marker = str "netplan" ++ '=' :: str "true" := by decide

theorem marker_entry_iff (k v : PyStr) (hk : '=' ∉ k) (hv : '=' ∉ v) :
    subList marker (entryOf (k, v)) = true ↔ str "netplan" <:+ k ∧ str "true" <+: v := by
  rw [marker_decomp]
  exact align_sub '=' (str "netplan") (str "true") k v (by decide) (by decide) hk hv

theorem marker_line_iff (r : Row) (hwf : wfRow r = true) :
    subList marker (serializeLine r) = true ↔
      ∃ kv ∈ r.extids, str "netplan" <:+ kv.1 ∧ str "true" <+: kv.2 := by
  rw [serializeLine_eq, sub_append_sep marker ',' (by decide) r.name _]
  have hname : subList marker r.name = false :=
    sub_of_not_mem marker r.name '=' (by decide)
      (goodStr_not_mem r.name '=' (wfRow_name r hwf) (by decide))
  rw [hname, Bool.false_or]
  have hconcat : ('"' :: serializeExtids r.extids) ++ ['"'] =
      ('"' :: serializeExtids r.extids) ++ '"' :: [] := rfl
  rw [hconcat, sub_append_sep marker '"' (by decide) _ [],
      (by decide : subList marker [] = false), Bool.or_false]
  have hcons : ('"' :: serializeExtids r.extids) = [] ++ '"' :: serializeExtids r.extids := rfl
  rw [hcons, sub_append_sep marker '"' (by decide) [] _,
      (by decide : subList marker [] = false), Bool.false_or]
  rw [serializeExtids, sub_joinC_iff marker ' ' (r.extids.map entryOf) (by decide) (by decide)]
  constructor
  · rintro ⟨p, hp, hsub⟩
    rcases List.mem_map.mp hp with ⟨kv, hkv, rfl⟩
    rcases wfRow_pair r kv hwf hkv with ⟨g1, g2⟩
    refine ⟨kv, hkv, ?_⟩
    rcases kv with ⟨k, v⟩
    exact (marker_entry_iff k v (goodStr_not_mem k '=' g1 (by decide))
      (goodStr_not_mem v '=' g2 (by decide))).mp hsub
  · rintro ⟨kv, hkv, hprop⟩
    rcases wfRow_pair r kv hwf hkv with ⟨g1, g2⟩
    refine ⟨entryOf kv, List.mem_map.mpr ⟨kv, hkv, rfl⟩, ?_⟩
    rcases kv with ⟨k, v⟩
    exact (marker_entry_iff k v (goodStr_not_mem k '=' g1 (by decide))
      (goodStr_not_mem v '=' g2 (by decide))).mpr hprop

theorem np_key_sub_line (r : Row) (kv : PyStr × PyStr) (hm : kv ∈ r.extids)
    (hk : startsWithS npfx kv.1 = true) : subList npfx (serializeLine r) = true := by
  rw [subList_iff]
  have h1 : npfx <+: kv.1 := List.isPrefixOf_iff_prefix.mp hk
  have h2 : kv.1 <+: entryOf kv := ⟨'=' :: kv.2, rfl⟩
  have h3 : entryOf kv <:+: serializeExtids r.extids := by
    rw [serializeExtids]
    exact mem_joinC_infix ' ' (r.extids.map entryOf) (entryOf kv)
      (List.mem_map.mpr ⟨kv, hm, rfl⟩)
  exact ((h1.trans h2).isInfix.trans h3).trans (blob_infix_line r)

/-! ### Lemmas: refinement under the engine's commands -/

theorem tableSub_refl (a : List Row) : tableSub a a :=
  fun r hr => ⟨r, hr, rfl, fun _ hkv => hkv⟩

theorem dbSub_refl (db : DB) : dbSub db db :=
  ⟨tableSub_refl _, tableSub_refl _, tableSub_refl _, tableSub_refl _,
   fun _ hkv => hkv, rfl⟩

theorem rowSub_trans (a b c : Row) (h1 : rowSub a b) (h2 : rowSub b c) : rowSub a c :=
  ⟨h1.1.trans h2.1, fun kv hkv => h2.2 kv (h1.2 kv hkv)⟩

theorem tableSub_trans (a b c : List Row) (h1 : tableSub a b) (h2 : tableSub b c) :
    tableSub a c := by
  intro r hr
  rcases h1 r hr with ⟨r2, hr2, hs2⟩
  rcases h2 r2 hr2 with ⟨r3, hr3, hs3⟩
  exact ⟨r3, hr3, rowSub_trans r r2 r3 hs2 hs3⟩

theorem dbSub_trans (a b c : DB) (h1 : dbSub a b) (h2 : dbSub b c) : dbSub a c :=
  ⟨tableSub_trans _ _ _ h1.1 h2.1, tableSub_trans _ _ _ h1.2.1 h2.2.1,
   tableSub_trans _ _ _ h1.2.2.1 h2.2.2.1, tableSub_trans _ _ _ h1.2.2.2.1 h2.2.2.2.1,
   fun kv hkv => h2.2.2.2.2.1 kv (h1.2.2.2.2.1 kv hkv),
   h1.2.2.2.2.2.trans h2.2.2.2.2.2⟩

theorem updTable_filter_sub (rows : List Row) (n : PyStr) (q : PyStr × PyStr → Bool) :
    tableSub (updTable rows n (fun l => l.filter q)) rows := by
  intro r' hr'
  rw [updTable, List.mem_map] at hr'
  rcases hr' with ⟨r, hr, rfl⟩
  by_cases hn : r.name = n
  · rw [if_pos hn]
    exact ⟨r, hr, rfl, fun kv hkv => (List.mem_filter.mp hkv).1⟩
  · rw [if_neg hn]
    exact ⟨r, hr, rfl, fun _ hkv => hkv⟩

theorem delName_sub (rows : List Row) (n : PyStr) : tableSub (delName rows n) rows :=
  fun r hr => ⟨r, (List.mem_filter.mp hr).1, rfl, fun _ hkv => hkv⟩

theorem updExtids_filter_sub (db : DB) (t n : PyStr) (q : PyStr × PyStr → Bool) :
    dbSub (updExtids db t n (fun l => l.filter q)) db := by
  rw [updExtids]
  split
  · exact ⟨tableSub_refl _, tableSub_refl _, tableSub_refl _, tableSub_refl _,
      fun kv hkv => (List.mem_filter.mp hkv).1, rfl⟩
  split
  · exact ⟨updTable_filter_sub _ _ _, tableSub_refl _, tableSub_refl _, tableSub_refl _,
      fun _ hkv => hkv, rfl⟩
  split
  · exact ⟨tableSub_refl _, updTable_filter_sub _ _ _, tableSub_refl _, tableSub_refl _,
      fun _ hkv => hkv, rfl⟩
  split
  · exact ⟨tableSub_refl _, tableSub_refl _, updTable_filter_sub _ _ _, tableSub_refl _,
      fun _ hkv => hkv, rfl⟩
  split
  · exact ⟨tableSub_refl _, tableSub_refl _, tableSub_refl _, updTable_filter_sub _ _ _,
      fun _ hkv => hkv, rfl⟩
  · exact dbSub_refl db

theorem applyCall_dbSub (db : DB) (args : List PyStr) : dbSub (applyCall db args) db := by
  unfold applyCall
  split
  · split
    · exact updExtids_filter_sub _ _ _ _
    · exact dbSub_refl db
  · split
    · split
      · exact ⟨delName_sub _ _, tableSub_refl _, tableSub_refl _, tableSub_refl _,
          fun _ hkv => hkv, rfl⟩
      split
      · exact ⟨delName_sub _ _, delName_sub _ _, delName_sub _ _, tableSub_refl _,
          fun _ hkv => hkv, rfl⟩
      split
      · exact ⟨tableSub_refl _, tableSub_refl _, delName_sub _ _, tableSub_refl _,
          fun _ hkv => hkv, rfl⟩
      · exact dbSub_refl db
    · exact dbSub_refl db
  · exact dbSub_refl db

theorem applyCmd_dbSub (db : DB) (c : Cmd) : dbSub (applyCmd db c) db := by
  cases c with
  | call args => exact applyCall_dbSub db args
  | output args => exact dbSub_refl db
  | run args => exact dbSub_refl db

theorem applyCmds_dbSub (cs : List Cmd) (db : DB) : dbSub (applyCmds db cs) db := by
  induction cs generalizing db with
  | nil => exact dbSub_refl db
  | cons c cs ih =>
    exact dbSub_trans _ _ _ (ih (applyCmd db c)) (applyCmd_dbSub db c)

theorem wfRow_of_rowSub (a b : Row) (h : rowSub a b) (hb : wfRow b = true) :
    wfRow a = true := by
  rw [wfRow, Bool.and_eq_true, List.all_eq_true]
  refine ⟨h.1 ▸ wfRow_name b hb, ?_⟩
  intro kv hkv
  rw [wfPair, Bool.and_eq_true]
  exact wfRow_pair b kv hb (h.2 kv hkv)

theorem wfDB_of_dbSub (a b : DB) (h : dbSub a b) (hwf : wfDB b) : wfDB a := by
  rcases h with ⟨hp, hb, hi, hc, ho, -⟩
  rcases hwf with ⟨wp, wb, wi, wc, wo⟩
  refine ⟨?_, ?_, ?_, ?_, ?_⟩
  · intro r hr; rcases hp r hr with ⟨r2, hr2, hs⟩; exact wfRow_of_rowSub r r2 hs (wp r2 hr2)
  · intro r hr; rcases hb r hr with ⟨r2, hr2, hs⟩; exact wfRow_of_rowSub r r2 hs (wb r2 hr2)
  · intro r hr; rcases hi r hr with ⟨r2, hr2, hs⟩; exact wfRow_of_rowSub r r2 hs (wi r2 hr2)
  · intro r hr; rcases hc r hr with ⟨r2, hr2, hs⟩; exact wfRow_of_rowSub r r2 hs (wc r2 hr2)
  · intro kv hkv; exact wo kv (ho kv hkv)

theorem rowClean2_of_rowSub (a b : Row) (h : rowSub a b) (hb : rowClean2 b) : rowClean2 a :=
  fun kv hkv => hb kv (h.2 kv hkv)

theorem rowClean1_of_rowSub (ifaces : List PyStr) (a b : Row) (h : rowSub a b)
    (hwa : wfRow a = true) (hwb : wfRow b = true) (hb : rowClean1 ifaces b) :
    rowClean1 ifaces a := by
  intro hsub
  rcases (marker_line_iff a hwa).mp hsub with ⟨kv, hkv, hp⟩
  have hsb : subList marker (serializeLine b) = true :=
    (marker_line_iff b hwb).mpr ⟨kv, h.2 kv hkv, hp⟩
  rw [h.1]
  exact hb hsb

/-! ### Helper lemmas about the cleaner functions -/

theorem DEFAULTS_ne_nil (column d : PyStr) (h : DEFAULTS column = some d) : d ≠ [] := by
  rw [DEFAULTS] at h
  split at h
  · exact (Option.some_inj.mp h) ▸ (by decide : str "false" ≠ [])
  split at h
  · exact (Option.some_inj.mp h) ▸ (by decide : str "false" ≠ [])
  · exact absurd h (by simp)

theorem finishTag_none (type iface setting : PyStr) (cs : List Cmd) :
    finishTag type iface setting (none, cs) =
      (none, cs ++ [Cmd.call [OVS_VSCTL_PATH, str "remove", type, iface,
                              str "external-ids", setting]]) := rfl

theorem finishTag_some (type iface setting : PyStr) (e : Err) (cs : List Cmd) :
    finishTag type iface setting (some e, cs) = (some e, cs) := rfl

/-- C2: for every scalar tag cleared via `_del_col`: no registered default
gives exactly one `remove` with the exact recorded value; a registered
default different from the recorded value gives exactly one
`set column=default`; a registered default equal to the recorded value gives
no mutating command at all. -/
theorem del_col_default_aware (type iface column value : PyStr) :
    (DEFAULTS column = none →
      _del_col type iface column value =
        [Cmd.call [OVS_VSCTL_PATH, str "remove", type, iface, column, value]]) ∧
    (∀ d, DEFAULTS column = some d → d ≠ value →
      _del_col type iface column value =
        [Cmd.call [OVS_VSCTL_PATH, str "set", type, iface, column ++ '=' :: d]]) ∧
    (∀ d, DEFAULTS column = some d → d = value →
      _del_col type iface column value = []) := by
  refine ⟨?_, ?_, ?_⟩
  · intro h
    simp only [_del_col, h]
  · intro d h hne
    simp only [_del_col, h]
    rw [if_pos ⟨DEFAULTS_ne_nil column d h, hne⟩]
  · intro d h he
    simp only [_del_col, h]
    have hneg : ¬(d ≠ [] ∧ d ≠ value) := by
      rintro ⟨-, hne⟩
      exact hne he
    rw [if_neg hneg]

/-- Closed witness for C2 at the spec's own example inputs. -/
theorem del_col_default_aware_witness :
    _del_col (str "Bridge") (str "br0") (str "mcast_snooping_enable") (str "true") =
      [Cmd.call [OVS_VSCTL_PATH, str "set", str "Bridge", str "br0",
                 str "mcast_snooping_enable" ++ '=' :: str "false"]] ∧
    _del_col (str "Bridge") (str "br0") (str "mcast_snooping_enable") (str "false") = [] ∧
    _del_col (str "Bridge") (str "br0") (str "other_col") (str "x") =
      [Cmd.call [OVS_VSCTL_PATH, str "remove", str "Bridge", str "br0",
                 str "other_col", str "x"]] :=
  ⟨(del_col_default_aware (str "Bridge") (str "br0") (str "mcast_snooping_enable")
      (str "true")).2.1 (str "false") (by decide) (by decide),
   (del_col_default_aware (str "Bridge") (str "br0") (str "mcast_snooping_enable")
      (str "false")).2.2 (str "false") (by decide) (by decide),
   (del_col_default_aware (str "Bridge") (str "br0") (str "other_col")
      (str "x")).1 (by decide)⟩

/-- C3: for a known global key, the delete command is issued iff every
comma-token of the recorded value is present in the text fetched by the
paired get command; when a token is missing, only the get is issued and no
error is raised. -/
theorem del_global_partial_match (db : DB) (type iface key value del_cmd get_cmd : PyStr)
    (h : GLOBALS key = some (del_cmd, get_cmd)) :
    (_del_global db type iface key value).1 = none ∧
    (Cmd.call (globalArgs del_cmd (globalIface del_cmd iface)) ∈
        (_del_global db type iface key value).2 ↔
      (splitAllC ',' value).all (fun item => subList item
        (db.globalText (globalArgs get_cmd (globalIface del_cmd iface)))) = true) ∧
    ((splitAllC ',' value).all (fun item => subList item
        (db.globalText (globalArgs get_cmd (globalIface del_cmd iface)))) = false →
      (_del_global db type iface key value).2 =
        [Cmd.output (globalArgs get_cmd (globalIface del_cmd iface))]) := by
  simp only [_del_global, h]
  by_cases hall : (splitAllC ',' value).all (fun item => subList item
      (db.globalText (globalArgs get_cmd (globalIface del_cmd iface)))) = true
  · rw [if_pos hall]
    refine ⟨rfl, ?_, ?_⟩
    · simp [hall]
    · intro hfalse
      rw [hall] at hfalse
      exact absurd hfalse (by simp)
  · rw [if_neg hall]
    refine ⟨rfl, ?_, fun _ => rfl⟩
    simp only [List.mem_singleton]
    constructor
    · intro hmem
      exact absurd hmem (by simp)
    · intro htrue
      exact absurd htrue hall

/-- Closed witness for C3: with recorded value `a,b` but only `a` still
present, no delete is issued; with value `a` fully present, it is. -/
theorem del_global_partial_match_witness :
    (_del_global dbG (str "Bridge") (str "br0") (str "set-fail-mode") (str "a,b")).2 =
      [Cmd.output (globalArgs (str "get-fail-mode")
        (globalIface (str "del-fail-mode") (str "br0")))] ∧
    Cmd.call (globalArgs (str "del-fail-mode") (globalIface (str "del-fail-mode") (str "br0"))) ∈
      (_del_global dbG (str "Bridge") (str "br0") (str "set-fail-mode") (str "a")).2 :=
  ⟨(del_global_partial_match dbG (str "Bridge") (str "br0") (str "set-fail-mode") (str "a,b")
      (str "del-fail-mode") (str "get-fail-mode") (by decide)).2.2 (by decide),
   ((del_global_partial_match dbG (str "Bridge") (str "br0") (str "set-fail-mode") (str "a")
      (str "del-fail-mode") (str "get-fail-mode") (by decide)).2.1).mpr (by decide)⟩

/-- C4: whenever `clear_setting` completes without raising, its final command
is the removal of the tag key itself from `external-ids` — in all three tag
kinds, including when the global partial-match guard suppressed the value
deletion. -/
theorem clear_setting_always_removes_tag (db : DB) (type iface setting value : PyStr)
    (cs : List Cmd) (h : clear_setting db type iface setting value = (none, cs)) :
    cs ≠ [] ∧ cs.getLast? =
      some (Cmd.call [OVS_VSCTL_PATH, str "remove", type, iface,
                      str "external-ids", setting]) := by
  rcases hg : (pySplitC '/' 2 setting).get? 1 with _ | col
  · simp only [clear_setting, hg] at h
    exact absurd h (by simp)
  · simp only [clear_setting, hg] at h
    rcases hx : (if col = str "global" ∧ 2 < (pySplitC '/' 2 setting).length then
        _del_global db type iface ((pySplitC '/' 2 setting).getD 2 []) value
      else if 2 < (pySplitC '/' 2 setting).length then
        (none, _del_dict type iface col ((pySplitC '/' 2 setting).getD 2 []) value)
      else
        (none, _del_col type iface col value)) with ⟨e, cs0⟩
    rw [hx] at h
    cases e with
    | some e2 =>
      rw [finishTag_some] at h
      exact absurd (congrArg Prod.fst h) (by simp)
    | none =>
      rw [finishTag_none] at h
      have hcs : cs = cs0 ++ [Cmd.call [OVS_VSCTL_PATH, str "remove", type, iface,
          str "external-ids", setting]] := (congrArg Prod.snd h).symm
      subst hcs
      exact ⟨by simp, List.getLast?_concat cs0⟩

/-- Closed witness for C4: the guard-suppressed global case still ends with
the tag removal. -/
theorem clear_setting_always_removes_tag_witness :
    [Cmd.output (globalArgs (str "get-fail-mode") (str "br0")),
     Cmd.call [OVS_VSCTL_PATH, str "remove", str "Bridge", str "br0",
               str "external-ids", str "netplan/global/set-fail-mode"]] ≠ [] ∧
    ([Cmd.output (globalArgs (str "get-fail-mode") (str "br0")),
      Cmd.call [OVS_VSCTL_PATH, str "remove", str "Bridge", str "br0",
                str "external-ids", str "netplan/global/set-fail-mode"]] :
        List Cmd).getLast? =
      some (Cmd.call [OVS_VSCTL_PATH, str "remove", str "Bridge", str "br0",
                      str "external-ids", str "netplan/global/set-fail-mode"]) :=
  clear_setting_always_removes_tag dbG (str "Bridge") (str "br0")
    (str "netplan/global/set-fail-mode") (str "x,y") _ (by decide)

/-- C8: an unknown global key makes `_del_global` raise with an empty command
trace, and the enclosing `clear_setting` propagates it without issuing the
tag removal either. -/
theorem del_global_unknown_key (db : DB) (type iface key value : PyStr)
    (h : GLOBALS key = none) :
    _del_global db type iface key value = (some (Err.unknownGlobal key), []) ∧
    clear_setting db type iface (str "netplan/global/" ++ key) value =
      (some (Err.unknownGlobal key), []) := by
  have hdel : _del_global db type iface key value = (some (Err.unknownGlobal key), []) := by
    simp only [_del_global, h]
  refine ⟨hdel, ?_⟩
  have hshape : str "netplan/global/" ++ key =
      str "netplan" ++ '/' :: (str "global" ++ '/' :: key) := rfl
  have hsplit : pySplitC '/' 2 (str "netplan/global/" ++ key) =
      [str "netplan", str "global", key] := by
    rw [hshape, pySplitC_sep_cons '/' 2 (str "netplan") _ (by decide) (by norm_num)]
    rw [pySplitC_sep_cons '/' 1 (str "global") _ (by decide) (by norm_num)]
    rw [pySplitC_zero]
  have hred : clear_setting db type iface (str "netplan/global/" ++ key) value =
      finishTag type iface (str "netplan/global/" ++ key)
        (_del_global db type iface key value) := by
    simp only [clear_setting, hsplit]
    rfl
  rw [hred, hdel, finishTag_some]

/-- Closed witness for C8 at a concrete unmapped key. -/
theorem del_global_unknown_key_witness :
    _del_global db0 (str "Port") (str "p0") (str "set-bogus") (str "v") =
      (some (Err.unknownGlobal (str "set-bogus")), []) ∧
    clear_setting db0 (str "Port") (str "p0") (str "netplan/global/" ++ str "set-bogus")
      (str "v") = (some (Err.unknownGlobal (str "set-bogus")), []) :=
  del_global_unknown_key db0 (str "Port") (str "p0") (str "set-bogus") (str "v") (by decide)

/-! ### Shape lemmas for `clear_setting` -/

theorem clear_setting_one (db : DB) (type iface setting value a : PyStr)
    (heq : pySplitC '/' 2 setting = [a]) :
    clear_setting db type iface setting value = (some Err.indexError, []) := by
  simp only [clear_setting, heq]
  rfl

theorem clear_setting_two (db : DB) (type iface setting value a b : PyStr)
    (heq : pySplitC '/' 2 setting = [a, b]) :
    clear_setting db type iface setting value =
      finishTag type iface setting (none, _del_col type iface b value) := by
  simp only [clear_setting, heq]
  show finishTag type iface setting
      (if b = str "global" ∧ 2 < ([a, b] : List PyStr).length then
        _del_global db type iface (([a, b] : List PyStr).getD 2 []) value
      else if 2 < ([a, b] : List PyStr).length then
        (none, _del_dict type iface b (([a, b] : List PyStr).getD 2 []) value)
      else
        (none, _del_col type iface b value)) = _
  rw [if_neg (by rintro ⟨-, hlt⟩; simp at hlt), if_neg (by simp)]

theorem clear_setting_three (db : DB) (type iface setting value a b c : PyStr)
    (heq : pySplitC '/' 2 setting = [a, b, c]) :
    clear_setting db type iface setting value =
      finishTag type iface setting
        (if b = str "global" then _del_global db type iface c value
         else (none, _del_dict type iface b c value)) := by
  simp only [clear_setting, heq]
  show finishTag type iface setting
      (if b = str "global" ∧ 2 < ([a, b, c] : List PyStr).length then
        _del_global db type iface (([a, b, c] : List PyStr).getD 2 []) value
      else if 2 < ([a, b, c] : List PyStr).length then
        (none, _del_dict type iface b (([a, b, c] : List PyStr).getD 2 []) value)
      else
        (none, _del_col type iface b value)) = _
  have hg : ([a, b, c] : List PyStr).getD 2 [] = c := rfl
  have hlen : 2 < ([a, b, c] : List PyStr).length := by simp
  by_cases hb : b = str "global"
  · rw [if_pos ⟨hb, hlen⟩, if_pos hb, hg]
  · rw [if_neg (fun hcon => hb hcon.1), if_pos hlen, if_neg hb, hg]

theorem list_shape_two_or_three (l : List PyStr) (h2 : 2 ≤ l.length) (h3 : l.length ≤ 3) :
    (∃ a b, l = [a, b]) ∨ (∃ a b c, l = [a, b, c]) := by
  rcases l with _ | ⟨a, _ | ⟨b, _ | ⟨c, _ | ⟨d, t⟩⟩⟩⟩
  · simp at h2
  · simp at h2
  · exact Or.inl ⟨a, b, rfl⟩
  · exact Or.inr ⟨a, b, c, rfl⟩
  · simp at h3

/-- C6: `clear_setting` splits the tag key on `/` into at most 3 parts and
dispatches to exactly one handler — global when 3 parts with first sub-part
`global`, map-entry when 3 parts otherwise, scalar column when 2 parts. -/
theorem clear_setting_dispatch (db : DB) (type iface setting value : PyStr)
    (h : containsC '/' setting = true) :
    2 ≤ (pySplitC '/' 2 setting).length ∧ (pySplitC '/' 2 setting).length ≤ 3 ∧
    (∀ a b c, pySplitC '/' 2 setting = [a, b, c] → b = str "global" →
      clear_setting db type iface setting value =
        finishTag type iface setting (_del_global db type iface c value)) ∧
    (∀ a b c, pySplitC '/' 2 setting = [a, b, c] → b ≠ str "global" →
      clear_setting db type iface setting value =
        finishTag type iface setting (none, _del_dict type iface b c value)) ∧
    (∀ a b, pySplitC '/' 2 setting = [a, b] →
      clear_setting db type iface setting value =
        finishTag type iface setting (none, _del_col type iface b value)) := by
  refine ⟨pySplitC_length_ge_two '/' 2 setting h (by norm_num),
    pySplitC_length_le '/' 2 setting, ?_, ?_, ?_⟩
  · intro a b c heq hb
    rw [clear_setting_three db type iface setting value a b c heq, if_pos hb]
  · intro a b c heq hb
    rw [clear_setting_three db type iface setting value a b c heq, if_neg hb]
  · intro a b heq
    exact clear_setting_two db type iface setting value a b heq

/-- Closed witness for C6: the 2-part key `netplan/global` goes to the
scalar-column handler, and a 3-part `netplan/global/...` key to the global
handler. -/
theorem clear_setting_dispatch_witness :
    clear_setting db0 (str "Bridge") (str "br0") (str "netplan/global") (str "v") =
      finishTag (str "Bridge") (str "br0") (str "netplan/global")
        (none, _del_col (str "Bridge") (str "br0") (str "global") (str "v")) ∧
    clear_setting dbG (str "Bridge") (str "br0") (str "netplan/global/set-fail-mode")
        (str "a") =
      finishTag (str "Bridge") (str "br0") (str "netplan/global/set-fail-mode")
        (_del_global dbG (str "Bridge") (str "br0") (str "set-fail-mode") (str "a")) ∧
    clear_setting db0 (str "Port") (str "p0") (str "netplan/external-ids/iface-id")
        (str "myhostname") =
      finishTag (str "Port") (str "p0") (str "netplan/external-ids/iface-id")
        (none, _del_dict (str "Port") (str "p0") (str "external-ids") (str "iface-id")
          (str "myhostname")) :=
  ⟨(clear_setting_dispatch db0 (str "Bridge") (str "br0") (str "netplan/global")
      (str "v") (by decide)).2.2.2.2 (str "netplan") (str "global") (by decide),
   (clear_setting_dispatch dbG (str "Bridge") (str "br0")
      (str "netplan/global/set-fail-mode") (str "a") (by decide)).2.2.1
      (str "netplan") (str "global") (str "set-fail-mode") (by decide) (by decide),
   (clear_setting_dispatch db0 (str "Port") (str "p0")
      (str "netplan/external-ids/iface-id") (str "myhostname") (by decide)).2.2.2.1
      (str "netplan") (str "external-ids") (str "iface-id") (by decide) (by decide)⟩

/-! ### C9 and C10: preflight and engine-token safety -/

/-- C9: `apply_ovs_cleanup` raises the not-installed condition when the
binary probe fails and the not-running condition when the database probe
fails, in both cases with an empty command trace. -/
theorem apply_preflight (installed active : Bool) (netdefs : List (PyStr × PyStr))
    (db : DB) :
    (installed = false →
      apply_ovs_cleanup installed active netdefs db = ⟨some Err.notInstalled, [], db⟩) ∧
    (installed = true → active = false →
      apply_ovs_cleanup installed active netdefs db = ⟨some Err.notRunning, [], db⟩) := by
  constructor
  · rintro rfl
    rfl
  · rintro rfl rfl
    rfl

/-- Closed witness for C9. -/
theorem apply_preflight_witness :
    apply_ovs_cleanup false true [] db0 = ⟨some Err.notInstalled, [], db0⟩ ∧
    apply_ovs_cleanup true false [] db0 = ⟨some Err.notRunning, [], db0⟩ :=
  ⟨(apply_preflight false true [] db0).1 rfl, (apply_preflight true false [] db0).2 rfl rfl⟩

theorem containsC_iff (c : Char) (s : PyStr) : containsC c s = true ↔ c ∈ s := by
  simp [containsC]

theorem exists_first_sep (c : Char) (s : PyStr) (h : containsC c s = true) :
    ∃ a b, s = a ++ c :: b ∧ c ∉ a := by
  induction s with
  | nil => simp [containsC] at h
  | cons x xs ih =>
    by_cases hx : x = c
    · subst hx
      exact ⟨[], xs, rfl, by simp⟩
    · have hxs : containsC c xs = true := by
        rw [containsC_iff] at h ⊢
        rcases List.mem_cons.mp h with rfl | hm
        · exact absurd rfl (fun heq => hx heq.symm)
        · exact hm
      rcases ih hxs with ⟨a, b, heq, ha⟩
      refine ⟨x :: a, b, by rw [heq, List.cons_append], ?_⟩
      intro hmem
      rcases List.mem_cons.mp hmem with heq2 | hm
      · exact hx heq2.symm
      · exact ha hm

theorem finishTag_fst (type iface setting : PyStr) (r : Option Err × List Cmd) :
    (finishTag type iface setting r).1 = r.1 := by
  rcases r with ⟨_ | e, cs⟩ <;> rfl

theorem del_global_fst (db : DB) (type iface key value : PyStr) :
    (_del_global db type iface key value).1 = none ∨
    (_del_global db type iface key value).1 = some (Err.unknownGlobal key) := by
  cases hG : GLOBALS key with
  | none =>
    refine Or.inr ?_
    simp only [_del_global, hG]
  | some pair =>
    rcases pair with ⟨dc, gc⟩
    refine Or.inl ?_
    simp only [_del_global, hG]
    split <;> rfl

theorem clear_setting_fst_safe (db : DB) (type iface setting value : PyStr)
    (h2 : 2 ≤ (pySplitC '/' 2 setting).length) :
    (clear_setting db type iface setting value).1 ≠ some Err.indexError ∧
    (clear_setting db type iface setting value).1 ≠ some Err.valueError := by
  rcases list_shape_two_or_three _ h2 (pySplitC_length_le '/' 2 setting) with
    ⟨a, b, heq⟩ | ⟨a, b, c, heq⟩
  · rw [clear_setting_two db type iface setting value a b heq, finishTag_fst]
    exact ⟨by simp, by simp⟩
  · rw [clear_setting_three db type iface setting value a b c heq, finishTag_fst]
    split
    · rcases del_global_fst db type iface c value with h | h <;> rw [h] <;>
        exact ⟨by simp, by simp⟩
    · exact ⟨by simp, by simp⟩

/-- C10: the engine's per-token step invokes `clear_setting` exactly for
tokens prefixed `netplan/` that contain `=`; for those, the single `=`-split
yields a key/value pair, the key splits on `/` into at least two parts (so
the `split[1]` access cannot fail), and neither an IndexError nor a
ValueError can arise; all other tokens are skipped with no command. -/
theorem phase2_entry_safety (db : DB) (t iface e : PyStr) :
    ((startsWithS npfx e && containsC '=' e) = false →
      phase2_entry db t iface e = (none, [])) ∧
    ((startsWithS npfx e && containsC '=' e) = true →
      ∃ s v, pySplitC '=' 1 e = [s, v] ∧ e = s ++ '=' :: v ∧ startsWithS npfx s = true ∧
        2 ≤ (pySplitC '/' 2 s).length ∧
        phase2_entry db t iface e = clear_setting db t iface s v ∧
        (clear_setting db t iface s v).1 ≠ some Err.indexError ∧
        (clear_setting db t iface s v).1 ≠ some Err.valueError) := by
  constructor
  · intro h
    rw [phase2_entry]
    rw [show (str "netplan/") = npfx from rfl]
    rw [if_neg (by rw [h]; simp)]
  · intro h
    have hsc : startsWithS npfx e = true ∧ containsC '=' e = true := by simpa using h
    rcases hsc with ⟨hs, hc⟩
    rcases exists_first_sep '=' e hc with ⟨a, b, heq, ha⟩
    subst heq
    have hsplit := pySplitC_one_eq a b '=' ha
    have hsA : startsWithS npfx a = true := by
      rw [startsWithS, List.isPrefixOf_iff_prefix]
      rw [startsWithS, List.isPrefixOf_iff_prefix] at hs
      exact (prefix_through_sep npfx '=' (by decide) a b).mp hs
    have hslash : '/' ∈ a := by
      have hnp : npfx <+: a := List.isPrefixOf_iff_prefix.mp hsA
      exact hnp.sublist.subset (by decide : '/' ∈ npfx)
    have h2 : 2 ≤ (pySplitC '/' 2 a).length :=
      pySplitC_length_ge_two '/' 2 a ((containsC_iff '/' a).mpr hslash) (by norm_num)
    have hred : phase2_entry db t iface (a ++ '=' :: b) = clear_setting db t iface a b := by
      rw [phase2_entry]
      rw [show (str "netplan/") = npfx from rfl]
      rw [if_pos h, hsplit]
    rcases clear_setting_fst_safe db t iface a b h2 with ⟨hie, hve⟩
    exact ⟨a, b, hsplit, rfl, hsA, h2, hred, hie, hve⟩

/-- Closed witness for C10: a well-formed tag token goes to `clear_setting`
and a bare `netplan=true` marker token is skipped. -/
theorem phase2_entry_safety_witness :
    phase2_entry db0 (str "Bridge") (str "br0") (str "netplan=true") = (none, []) ∧
    (∃ s v, pySplitC '=' 1 (str "netplan/rstp_enable=true") = [s, v] ∧
      str "netplan/rstp_enable=true" = s ++ '=' :: v ∧ startsWithS npfx s = true ∧
      2 ≤ (pySplitC '/' 2 s).length ∧
      phase2_entry db0 (str "Bridge") (str "br0") (str "netplan/rstp_enable=true") =
        clear_setting db0 (str "Bridge") (str "br0") s v ∧
      (clear_setting db0 (str "Bridge") (str "br0") s v).1 ≠ some Err.indexError ∧
      (clear_setting db0 (str "Bridge") (str "br0") s v).1 ≠ some Err.valueError) :=
  ⟨(phase2_entry_safety db0 (str "Bridge") (str "br0") (str "netplan=true")).1 (by decide),
   (phase2_entry_safety db0 (str "Bridge") (str "br0")
      (str "netplan/rstp_enable=true")).2 (by decide)⟩

/-! ### C1: non-interference -/

/-- C1 (amended): a row whose listed CSV line does not contain the substring
`netplan=true` gets no command at all from phase 1, and a row whose line does
not contain the substring `netplan/` gets no command and no database change
from phase 2.  (The code's guard is substring containment over the whole
line, not the presence of a marker entry — see the counterexample.) -/
theorem phase_noninterference (db : DB) (ifaces : List PyStr) (tname tdel t line : PyStr) :
    (subList (str "netplan=true") line = false →
      phase1_line db ifaces tname tdel line = []) ∧
    (subList (str "netplan/") line = false →
      phase2_line db t line = (none, [], db)) := by
  constructor
  · intro h
    rw [phase1_line, if_neg (by rw [h]; simp)]
  · intro h
    rw [phase2_line, if_neg (by rw [h]; simp)]

/-- Closed witness for the amended C1: an untagged legacy row is untouched by
both phases. -/
theorem phase_noninterference_witness :
    phase1_line db0 [] (str "Bridge") (str "del-br")
      (serializeLine ⟨str "legacy0", [(str "foo", str "bar")]⟩) = [] ∧
    phase2_line db0 (str "Bridge")
      (serializeLine ⟨str "legacy0", [(str "foo", str "bar")]⟩) = (none, [], db0) :=
  ⟨(phase_noninterference db0 [] (str "Bridge") (str "del-br") (str "Bridge")
      (serializeLine ⟨str "legacy0", [(str "foo", str "bar")]⟩)).1 (by decide),
   (phase_noninterference db0 [] (str "Bridge") (str "del-br") (str "Bridge")
      (serializeLine ⟨str "legacy0", [(str "foo", str "bar")]⟩)).2 (by decide)⟩

/-- C1 counterexample: the port `eth0` carries no `netplan=true` entry (its
only `external-ids` entry is `xnetplan=truez`, and no key equals `netplan`),
yet the reconciliation run issues a delete against it, because the phase-1
guard matches the marker as a substring of the whole line. -/
theorem phase1_substring_overreach :
    (∀ e ∈ splitAllC ' ' (stripC '"' (serializeExtids [(str "xnetplan", str "truez")])),
      e ≠ str "netplan=true") ∧
    (∀ kv ∈ ([(str "xnetplan", str "truez")] : List (PyStr × PyStr)),
      kv.1 ≠ str "netplan") ∧
    Cmd.call [OVS_VSCTL_PATH, str "--if-exists", str "del-port", str "eth0"] ∈
      (apply_ovs_cleanup true true [] dbC1).trace := by
  refine ⟨by decide, by decide, by decide⟩

/-! ### C7: phase-1 deletion ordering -/

theorem phase1_line_calls (db : DB) (ifaces : List PyStr) (tname tdel line : PyStr) :
    ∀ c ∈ phase1_line db ifaces tname tdel line, isMutating c = true →
      (∃ n, c = Cmd.call [OVS_VSCTL_PATH, str "--if-exists", tdel, n]) ∨
      (tname = str "Interface" ∧
        ∃ n, c = Cmd.call [OVS_VSCTL_PATH, str "--if-exists", str "del-bond-iface", n]) := by
  intro c hc hm
  simp only [phase1_line] at hc
  split at hc
  · split at hc
    · exact absurd hc (List.not_mem_nil c)
    · split at hc
      · split at hc
        · rcases List.mem_cons.mp hc with rfl | hc2
          · simp [isMutating] at hm
          · rcases List.mem_singleton.mp hc2 with rfl
            exact Or.inl ⟨_, rfl⟩
        · rcases List.mem_cons.mp hc with rfl | hc2
          · simp [isMutating] at hm
          · rcases List.mem_singleton.mp hc2 with rfl
            rename_i htn _
            exact Or.inr ⟨htn, _, rfl⟩
      · rcases List.mem_singleton.mp hc with rfl
        exact Or.inl ⟨_, rfl⟩
  · exact absurd hc (List.not_mem_nil c)

theorem phase1_lines_calls (ifaces : List PyStr) (tname tdel : PyStr) (ls : List PyStr)
    (db : DB) :
    ∀ c ∈ (phase1_lines ifaces tname tdel db ls).1, isMutating c = true →
      (∃ n, c = Cmd.call [OVS_VSCTL_PATH, str "--if-exists", tdel, n]) ∨
      (tname = str "Interface" ∧
        ∃ n, c = Cmd.call [OVS_VSCTL_PATH, str "--if-exists", str "del-bond-iface", n]) := by
  induction ls generalizing db with
  | nil =>
    intro c hc
    exact absurd hc (List.not_mem_nil c)
  | cons l ls ih =>
    intro c hc hm
    simp only [phase1_lines] at hc
    rcases List.mem_append.mp hc with hc1 | hc2
    · exact phase1_line_calls db ifaces tname tdel l c hc1 hm
    · exact ih _ c hc2 hm

theorem phase1_table_calls (ifaces : List PyStr) (db : DB) (tname tdel : PyStr) :
    ∀ c ∈ (phase1_table ifaces db tname tdel).1, isMutating c = true →
      (∃ n, c = Cmd.call [OVS_VSCTL_PATH, str "--if-exists", tdel, n]) ∨
      (tname = str "Interface" ∧
        ∃ n, c = Cmd.call [OVS_VSCTL_PATH, str "--if-exists", str "del-bond-iface", n]) := by
  intro c hc hm
  simp only [phase1_table] at hc
  rcases List.mem_cons.mp hc with rfl | hc2
  · simp [isMutating] at hm
  · exact phase1_lines_calls ifaces tname tdel _ db c hc2 hm

/-- C7: the phase-1 trace splits into a Port segment, then a Bridge segment,
then an Interface segment; every mutating command in the first is a
`del-port`, in the second a `del-br`, and in the third a `del-br` or
`del-bond-iface`, so all Port-table deletions precede all Bridge-table
deletions, which precede all Interface-table deletions. -/
theorem phase1_ordering (ifaces : List PyStr) (db : DB) :
    ∃ p b i, (phase1 ifaces db).1 = p ++ b ++ i ∧
      (∀ c ∈ p, isMutating c = true →
        ∃ n, c = Cmd.call [OVS_VSCTL_PATH, str "--if-exists", str "del-port", n]) ∧
      (∀ c ∈ b, isMutating c = true →
        ∃ n, c = Cmd.call [OVS_VSCTL_PATH, str "--if-exists", str "del-br", n]) ∧
      (∀ c ∈ i, isMutating c = true →
        ∃ n, c = Cmd.call [OVS_VSCTL_PATH, str "--if-exists", str "del-br", n] ∨
             c = Cmd.call [OVS_VSCTL_PATH, str "--if-exists", str "del-bond-iface", n]) := by
  refine ⟨(phase1_table ifaces db (str "Port") (str "del-port")).1,
    (phase1_table ifaces (phase1_table ifaces db (str "Port") (str "del-port")).2
      (str "Bridge") (str "del-br")).1,
    (phase1_table ifaces (phase1_table ifaces
        (phase1_table ifaces db (str "Port") (str "del-port")).2
        (str "Bridge") (str "del-br")).2 (str "Interface") (str "del-br")).1,
    rfl, ?_, ?_, ?_⟩
  · intro c hc hm
    rcases phase1_table_calls ifaces db (str "Port") (str "del-port") c hc hm with
      h | ⟨habs, -⟩
    · exact h
    · exact absurd habs (by decide)
  · intro c hc hm
    rcases phase1_table_calls ifaces _ (str "Bridge") (str "del-br") c hc hm with
      h | ⟨habs, -⟩
    · exact h
    · exact absurd habs (by decide)
  · intro c hc hm
    rcases phase1_table_calls ifaces _ (str "Interface") (str "del-br") c hc hm with
      ⟨n, h⟩ | ⟨-, n, h⟩
    · exact ⟨n, Or.inl h⟩
    · exact ⟨n, Or.inr h⟩

/-- Closed witness for C7 on a database holding a stale port, bridge and
fake-bridge interface. -/
theorem phase1_ordering_witness :
    ∃ p b i, (phase1 [] db7).1 = p ++ b ++ i ∧
      (∀ c ∈ p, isMutating c = true →
        ∃ n, c = Cmd.call [OVS_VSCTL_PATH, str "--if-exists", str "del-port", n]) ∧
      (∀ c ∈ b, isMutating c = true →
        ∃ n, c = Cmd.call [OVS_VSCTL_PATH, str "--if-exists", str "del-br", n]) ∧
      (∀ c ∈ i, isMutating c = true →
        ∃ n, c = Cmd.call [OVS_VSCTL_PATH, str "--if-exists", str "del-br", n] ∨
             c = Cmd.call [OVS_VSCTL_PATH, str "--if-exists", str "del-bond-iface", n]) :=
  phase1_ordering [] db7

/-! ### Table selection and listing round-trips -/

theorem tableRows_port (db : DB) : tableRows db (str "Port") = db.port := rfl

theorem tableRows_bridge (db : DB) : tableRows db (str "Bridge") = db.bridge := by
  rw [tableRows, if_neg (by decide), if_pos rfl]

theorem tableRows_interface (db : DB) : tableRows db (str "Interface") = db.interface := by
  rw [tableRows, if_neg (by decide), if_neg (by decide), if_pos rfl]

theorem tableRows_controller (db : DB) : tableRows db (str "Controller") = db.controller := by
  rw [tableRows, if_neg (by decide), if_neg (by decide), if_neg (by decide), if_pos rfl]

theorem dbSub_tableRows (a b : DB) (t : PyStr) (h : dbSub a b) :
    tableSub (tableRows a t) (tableRows b t) := by
  rw [tableRows, tableRows]
  split
  · exact h.1
  split
  · exact h.2.1
  split
  · exact h.2.2.1
  split
  · exact h.2.2.2.1
  · intro r hr
    exact absurd hr (List.not_mem_nil r)

theorem mem_joinC_cases (sep : Char) (parts : List PyStr) (c : Char)
    (h : c ∈ joinC sep parts) : c = sep ∨ ∃ p ∈ parts, c ∈ p := by
  induction parts with
  | nil => exact absurd h (List.not_mem_nil c)
  | cons p ps ih =>
    cases ps with
    | nil => exact Or.inr ⟨p, List.mem_cons_self p [], h⟩
    | cons q qs =>
      rw [joinC_cons_cons] at h
      rcases List.mem_append.mp h with hm | hm
      · exact Or.inr ⟨p, List.mem_cons_self p _, hm⟩
      · rcases List.mem_cons.mp hm with rfl | hm2
        · exact Or.inl rfl
        · rcases ih hm2 with hs | ⟨x, hx, hcx⟩
          · exact Or.inl hs
          · exact Or.inr ⟨x, List.mem_cons_of_mem _ hx, hcx⟩

theorem serializeExtids_chars (l : List (PyStr × PyStr))
    (hl : ∀ kv ∈ l, wfPair kv = true) (c : Char) (hc : c ∈ serializeExtids l) :
    c = ' ' ∨ c = '=' ∨ goodChar c = true := by
  rw [serializeExtids] at hc
  rcases mem_joinC_cases ' ' (l.map entryOf) c hc with rfl | ⟨p, hp, hcp⟩
  · exact Or.inl rfl
  · rcases List.mem_map.mp hp with ⟨kv, hkv, rfl⟩
    have hwf := hl kv hkv
    rw [wfPair, Bool.and_eq_true] at hwf
    rw [entryOf] at hcp
    rcases List.mem_append.mp hcp with hm | hm
    · refine Or.inr (Or.inr ?_)
      have := hwf.1
      rw [goodStr, List.all_eq_true] at this
      exact this c hm
    · rcases List.mem_cons.mp hm with rfl | hm2
      · exact Or.inr (Or.inl rfl)
      · refine Or.inr (Or.inr ?_)
        have := hwf.2
        rw [goodStr, List.all_eq_true] at this
        exact this c hm2

theorem quote_not_in_blob (l : List (PyStr × PyStr)) (hl : ∀ kv ∈ l, wfPair kv = true) :
    '"' ∉ serializeExtids l := by
  intro hmem
  rcases serializeExtids_chars l hl '"' hmem with h | h | h
  · exact absurd h (by decide)
  · exact absurd h (by decide)
  · exact absurd h (by decide)

theorem newline_not_in_blob (l : List (PyStr × PyStr)) (hl : ∀ kv ∈ l, wfPair kv = true) :
    '\n' ∉ serializeExtids l := by
  intro hmem
  rcases serializeExtids_chars l hl '\n' hmem with h | h | h
  · exact absurd h (by decide)
  · exact absurd h (by decide)
  · exact absurd h (by decide)

theorem wfRow_pairs_wf (r : Row) (h : wfRow r = true) : ∀ kv ∈ r.extids, wfPair kv = true := by
  rw [wfRow, Bool.and_eq_true] at h
  have h2 := h.2
  rw [List.all_eq_true] at h2
  exact h2

theorem serializeLine_ne_nil (r : Row) : serializeLine r ≠ [] := by
  rw [serializeLine_eq]
  simp

theorem newline_not_in_line (r : Row) (h : wfRow r = true) : '\n' ∉ serializeLine r := by
  rw [serializeLine_eq]
  intro hm
  rcases List.mem_append.mp hm with hm | hm
  · exact goodStr_not_mem r.name '\n' (wfRow_name r h) (by decide) hm
  · rcases List.mem_cons.mp hm with h1 | hm2
    · exact absurd h1 (by decide)
    · rcases List.mem_append.mp hm2 with hm3 | hm4
      · rcases List.mem_cons.mp hm3 with h1 | hm5
        · exact absurd h1 (by decide)
        · exact newline_not_in_blob r.extids (wfRow_pairs_wf r h) hm5
      · exact absurd (List.mem_singleton.mp hm4) (by decide)

theorem pySplitlines_single (s : PyStr) (hne : s ≠ []) (hnl : '\n' ∉ s) :
    pySplitlines s = [s] := by
  rw [pySplitlines, if_neg hne, splitAllC_no_sep '\n' s hnl]
  rw [if_neg (by intro hcon; apply hne; simpa using hcon)]

theorem listing_lines (db : DB) (t : PyStr)
    (hwf : ∀ r ∈ tableRows db t, wfRow r = true)
    (ht : t = str "Port" ∨ t = str "Bridge" ∨ t = str "Interface" ∨ t = str "Controller") :
    pySplitlines (listingText db t) = (tableRows db t).map serializeLine := by
  have hnO : ¬ t = str "Open_vSwitch" := by
    rcases ht with rfl | rfl | rfl | rfl <;> decide
  rw [listingText, if_neg hnO]
  exact pySplitlines_joinC ((tableRows db t).map serializeLine)
    (by
      intro l hl
      rcases List.mem_map.mp hl with ⟨r, hr, rfl⟩
      exact ⟨serializeLine_ne_nil r, newline_not_in_line r (hwf r hr)⟩)

theorem serializeOvsLine_ne_nil (l : List (PyStr × PyStr)) : serializeOvsLine l ≠ [] := by
  rw [serializeOvsLine]
  simp

theorem listing_lines_ovs (db : DB) (hwf : ∀ kv ∈ db.ovs, wfPair kv = true) :
    pySplitlines (listingText db (str "Open_vSwitch")) = [serializeOvsLine db.ovs] := by
  rw [listingText, if_pos rfl]
  refine pySplitlines_single _ (serializeOvsLine_ne_nil db.ovs) ?_
  rw [serializeOvsLine]
  intro hm
  rcases List.mem_cons.mp hm with h1 | hm2
  · exact absurd h1 (by decide)
  · rcases List.mem_append.mp hm2 with hm3 | hm4
    · exact newline_not_in_blob db.ovs hwf hm3
    · exact absurd (List.mem_singleton.mp hm4) (by decide)

/-! ### Phase-1 analysis -/

theorem applyCall_ifexists_eq (db : DB) (d n : PyStr) :
    applyCall db [OVS_VSCTL_PATH, str "--if-exists", d, n] =
      if d = str "del-port" then { db with port := delName db.port n }
      else if d = str "del-br" then
        { db with port := delName db.port n, bridge := delName db.bridge n,
                  interface := delName db.interface n }
      else if d = str "del-bond-iface" then { db with interface := delName db.interface n }
      else db := rfl

theorem applyCall_remove_eq (db : DB) (t n col v : PyStr) :
    applyCall db [OVS_VSCTL_PATH, str "remove", t, n, col, v] =
      (if col = str "external-ids" then
        updExtids db t n (fun l => l.filter (removeArgKeeps v)) else db) := by
  show (if str "remove" = str "remove" ∧ col = str "external-ids" then
      updExtids db t n (fun l => l.filter (removeArgKeeps v)) else db) = _
  by_cases h : col = str "external-ids"
  · rw [if_pos ⟨rfl, h⟩, if_pos h]
  · rw [if_neg (fun hc => h hc.2), if_neg h]

theorem updExtids_port (db : DB) (n : PyStr)
    (f : List (PyStr × PyStr) → List (PyStr × PyStr)) :
    updExtids db (str "Port") n f = { db with port := updTable db.port n f } := by
  rw [updExtids, if_neg (by decide), if_pos rfl]

theorem updExtids_bridge (db : DB) (n : PyStr)
    (f : List (PyStr × PyStr) → List (PyStr × PyStr)) :
    updExtids db (str "Bridge") n f = { db with bridge := updTable db.bridge n f } := by
  rw [updExtids, if_neg (by decide), if_neg (by decide), if_pos rfl]

theorem updExtids_interface (db : DB) (n : PyStr)
    (f : List (PyStr × PyStr) → List (PyStr × PyStr)) :
    updExtids db (str "Interface") n f =
      { db with interface := updTable db.interface n f } := by
  rw [updExtids, if_neg (by decide), if_neg (by decide), if_neg (by decide), if_pos rfl]

theorem updExtids_controller (db : DB) (n : PyStr)
    (f : List (PyStr × PyStr) → List (PyStr × PyStr)) :
    updExtids db (str "Controller") n f =
      { db with controller := updTable db.controller n f } := by
  rw [updExtids, if_neg (by decide), if_neg (by decide), if_neg (by decide),
      if_neg (by decide), if_pos rfl]

theorem updExtids_ovs_eq (db : DB) (n : PyStr)
    (f : List (PyStr × PyStr) → List (PyStr × PyStr)) :
    updExtids db (str "Open_vSwitch") n f = { db with ovs := f db.ovs } := by
  rw [updExtids, if_pos rfl]

theorem delName_not_mem_name (rows : List Row) (n : PyStr) :
    ∀ r ∈ delName rows n, r.name ≠ n := by
  intro r hr
  have := (List.mem_filter.mp hr).2
  simpa using this

theorem delName_mem (rows : List Row) (n : PyStr) :
    ∀ r ∈ delName rows n, r ∈ rows :=
  fun r hr => (List.mem_filter.mp hr).1

theorem phase1_line_apply (db : DB) (ifaces : List PyStr) (tname tdel l : PyStr) :
    applyCmds db (phase1_line db ifaces tname tdel l) = db ∨
    ∃ d, (d = tdel ∨ d = str "del-bond-iface") ∧
      applyCmds db (phase1_line db ifaces tname tdel l) =
        applyCall db [OVS_VSCTL_PATH, str "--if-exists", d, (splitAllC ',' l).headD []] := by
  simp only [phase1_line]
  by_cases h1 : subList (str "netplan=true") l = true
  · rw [if_pos h1]
    by_cases h2 : ifaces.contains ((splitAllC ',' l).headD []) = true
    · rw [if_pos h2]
      exact Or.inl rfl
    · rw [if_neg h2]
      by_cases h3 : tname = str "Interface"
      · rw [if_pos h3]
        by_cases h4 : brExists db ((splitAllC ',' l).headD []) = true
        · rw [if_pos h4]
          exact Or.inr ⟨tdel, Or.inl rfl, rfl⟩
        · rw [if_neg h4]
          exact Or.inr ⟨str "del-bond-iface", Or.inr rfl, rfl⟩
      · rw [if_neg h3]
        exact Or.inr ⟨tdel, Or.inl rfl, rfl⟩
  · rw [if_neg h1]
    exact Or.inl rfl

theorem phase1_line_mono (db : DB) (ifaces : List PyStr) (tname tdel l : PyStr) :
    (∀ r ∈ (applyCmds db (phase1_line db ifaces tname tdel l)).port, r ∈ db.port) ∧
    (∀ r ∈ (applyCmds db (phase1_line db ifaces tname tdel l)).bridge, r ∈ db.bridge) ∧
    (∀ r ∈ (applyCmds db (phase1_line db ifaces tname tdel l)).interface,
      r ∈ db.interface) := by
  rcases phase1_line_apply db ifaces tname tdel l with heq | ⟨d, -, heq⟩
  · rw [heq]
    exact ⟨fun r h => h, fun r h => h, fun r h => h⟩
  · rw [heq, applyCall_ifexists_eq]
    split
    · exact ⟨delName_mem _ _, fun r h => h, fun r h => h⟩
    split
    · exact ⟨delName_mem _ _, delName_mem _ _, delName_mem _ _⟩
    split
    · exact ⟨fun r h => h, fun r h => h, delName_mem _ _⟩
    · exact ⟨fun r h => h, fun r h => h, fun r h => h⟩

theorem phase1_line_kill_port (db : DB) (ifaces : List PyStr) (l : PyStr)
    (h1 : subList (str "netplan=true") l = true)
    (h2 : ifaces.contains ((splitAllC ',' l).headD []) = false) :
    ∀ r ∈ (applyCmds db (phase1_line db ifaces (str "Port") (str "del-port") l)).port,
      r.name ≠ (splitAllC ',' l).headD [] := by
  simp only [phase1_line]
  rw [if_pos h1, if_neg (by rw [h2]; simp), if_neg (by decide)]
  intro r hr
  rw [show applyCmds db
      [Cmd.call [OVS_VSCTL_PATH, str "--if-exists", str "del-port",
        (splitAllC ',' l).headD []]] =
    applyCall db [OVS_VSCTL_PATH, str "--if-exists", str "del-port",
      (splitAllC ',' l).headD []] from rfl, applyCall_ifexists_eq, if_pos rfl] at hr
  exact delName_not_mem_name db.port _ r hr

theorem phase1_line_kill_bridge (db : DB) (ifaces : List PyStr) (l : PyStr)
    (h1 : subList (str "netplan=true") l = true)
    (h2 : ifaces.contains ((splitAllC ',' l).headD []) = false) :
    ∀ r ∈ (applyCmds db (phase1_line db ifaces (str "Bridge") (str "del-br") l)).bridge,
      r.name ≠ (splitAllC ',' l).headD [] := by
  simp only [phase1_line]
  rw [if_pos h1, if_neg (by rw [h2]; simp), if_neg (by decide)]
  intro r hr
  rw [show applyCmds db
      [Cmd.call [OVS_VSCTL_PATH, str "--if-exists", str "del-br",
        (splitAllC ',' l).headD []]] =
    applyCall db [OVS_VSCTL_PATH, str "--if-exists", str "del-br",
      (splitAllC ',' l).headD []] from rfl, applyCall_ifexists_eq,
    if_neg (by decide), if_pos rfl] at hr
  exact delName_not_mem_name db.bridge _ r hr

theorem phase1_line_kill_interface (db : DB) (ifaces : List PyStr) (l : PyStr)
    (h1 : subList (str "netplan=true") l = true)
    (h2 : ifaces.contains ((splitAllC ',' l).headD []) = false) :
    ∀ r ∈ (applyCmds db
        (phase1_line db ifaces (str "Interface") (str "del-br") l)).interface,
      r.name ≠ (splitAllC ',' l).headD [] := by
  simp only [phase1_line]
  rw [if_pos h1, if_neg (by rw [h2]; simp), if_pos trivial]
  by_cases h4 : brExists db ((splitAllC ',' l).headD []) = true
  · rw [if_pos h4]
    intro r hr
    rw [show applyCmds db
        [Cmd.run [OVS_VSCTL_PATH, str "br-exists", (splitAllC ',' l).headD []],
         Cmd.call [OVS_VSCTL_PATH, str "--if-exists", str "del-br",
          (splitAllC ',' l).headD []]] =
      applyCall db [OVS_VSCTL_PATH, str "--if-exists", str "del-br",
        (splitAllC ',' l).headD []] from rfl, applyCall_ifexists_eq,
      if_neg (by decide), if_pos rfl] at hr
    exact delName_not_mem_name db.interface _ r hr
  · rw [if_neg h4]
    intro r hr
    rw [show applyCmds db
        [Cmd.run [OVS_VSCTL_PATH, str "br-exists", (splitAllC ',' l).headD []],
         Cmd.call [OVS_VSCTL_PATH, str "--if-exists", str "del-bond-iface",
          (splitAllC ',' l).headD []]] =
      applyCall db [OVS_VSCTL_PATH, str "--if-exists", str "del-bond-iface",
        (splitAllC ',' l).headD []] from rfl, applyCall_ifexists_eq,
      if_neg (by decide), if_neg (by decide), if_pos rfl] at hr
    exact delName_not_mem_name db.interface _ r hr

theorem line_head (r : Row) (h : wfRow r = true) :
    (splitAllC ',' (serializeLine r)).headD [] = r.name := by
  rw [serializeLine_eq, splitAllC_sep_cons ',' r.name _
    (goodStr_not_mem r.name ',' (wfRow_name r h) (by decide))]
  rfl

theorem phase1_lines_establish (ifaces : List PyStr) (tname tdel : PyStr)
    (fld : DB → List Row)
    (Hmono : ∀ db l r, r ∈ fld (applyCmds db (phase1_line db ifaces tname tdel l)) →
      r ∈ fld db)
    (Hkill : ∀ db l, subList (str "netplan=true") l = true →
      ifaces.contains ((splitAllC ',' l).headD []) = false →
      ∀ r ∈ fld (applyCmds db (phase1_line db ifaces tname tdel l)),
        r.name ≠ (splitAllC ',' l).headD []) :
    ∀ ls db,
      (∀ r ∈ fld db, wfRow r = true) →
      (∀ r ∈ fld db, subList marker (serializeLine r) = true →
        serializeLine r ∈ ls ∨ ifaces.contains r.name = true) →
      (∀ r ∈ fld (phase1_lines ifaces tname tdel db ls).2, r ∈ fld db) ∧
      (∀ r ∈ fld (phase1_lines ifaces tname tdel db ls).2,
        subList marker (serializeLine r) = true → ifaces.contains r.name = true) := by
  intro ls
  induction ls with
  | nil =>
    intro db hwf hinv
    refine ⟨fun r hr => hr, ?_⟩
    intro r hr hsub
    rcases hinv r hr hsub with habs | hmem
    · exact absurd habs (List.not_mem_nil _)
    · exact hmem
  | cons l ls ih =>
    intro db hwf hinv
    have hstep : (phase1_lines ifaces tname tdel db (l :: ls)).2 =
        (phase1_lines ifaces tname tdel
          (applyCmds db (phase1_line db ifaces tname tdel l)) ls).2 := by
      simp only [phase1_lines]
    have hwf2 : ∀ r ∈ fld (applyCmds db (phase1_line db ifaces tname tdel l)),
        wfRow r = true := fun r hr => hwf r (Hmono db l r hr)
    have hinv2 : ∀ r ∈ fld (applyCmds db (phase1_line db ifaces tname tdel l)),
        subList marker (serializeLine r) = true →
        serializeLine r ∈ ls ∨ ifaces.contains r.name = true := by
      intro r hr hsub
      rcases hinv r (Hmono db l r hr) hsub with hmem | hmem
      · rcases List.mem_cons.mp hmem with heq | hmem2
        · by_cases hcont : ifaces.contains r.name = true
          · exact Or.inr hcont
          · exfalso
            have hwfr : wfRow r = true := hwf r (Hmono db l r hr)
            have hhd : (splitAllC ',' l).headD [] = r.name := by
              rw [← heq]
              exact line_head r hwfr
            have hcontf : ifaces.contains ((splitAllC ',' l).headD []) = false := by
              rw [hhd]
              revert hcont
              cases ifaces.contains r.name <;> simp
            have hsubl : subList (str "netplan=true") l = true := by
              rw [← heq]
              exact hsub
            exact Hkill db l hsubl hcontf r hr hhd.symm
        · exact Or.inl hmem2
      · exact Or.inr hmem
    rcases ih (applyCmds db (phase1_line db ifaces tname tdel l)) hwf2 hinv2 with ⟨ihm, ihc⟩
    rw [hstep]
    exact ⟨fun r hr => Hmono db l r (ihm r hr), ihc⟩

theorem phase1_lines_mono (ifaces : List PyStr) (tname tdel : PyStr)
    (fld : DB → List Row)
    (Hmono : ∀ db l r, r ∈ fld (applyCmds db (phase1_line db ifaces tname tdel l)) →
      r ∈ fld db) :
    ∀ ls db r, r ∈ fld (phase1_lines ifaces tname tdel db ls).2 → r ∈ fld db := by
  intro ls
  induction ls with
  | nil => intro db r hr; exact hr
  | cons l ls ih =>
    intro db r hr
    have hstep : (phase1_lines ifaces tname tdel db (l :: ls)).2 =
        (phase1_lines ifaces tname tdel
          (applyCmds db (phase1_line db ifaces tname tdel l)) ls).2 := by
      simp only [phase1_lines]
    rw [hstep] at hr
    exact Hmono db l r (ih _ r hr)

theorem phase1_lines_dbSub (ifaces : List PyStr) (tname tdel : PyStr) :
    ∀ ls db, dbSub (phase1_lines ifaces tname tdel db ls).2 db := by
  intro ls
  induction ls with
  | nil => intro db; exact dbSub_refl db
  | cons l ls ih =>
    intro db
    have hstep : (phase1_lines ifaces tname tdel db (l :: ls)).2 =
        (phase1_lines ifaces tname tdel
          (applyCmds db (phase1_line db ifaces tname tdel l)) ls).2 := by
      simp only [phase1_lines]
    rw [hstep]
    exact dbSub_trans _ _ _ (ih _) (applyCmds_dbSub _ _)

theorem phase1_table_dbSub (ifaces : List PyStr) (db : DB) (tname tdel : PyStr) :
    dbSub (phase1_table ifaces db tname tdel).2 db :=
  phase1_lines_dbSub ifaces tname tdel _ db

theorem phase1_dbSub (ifaces : List PyStr) (db : DB) : dbSub (phase1 ifaces db).2 db := by
  simp only [phase1]
  exact dbSub_trans _ _ _ (phase1_table_dbSub ifaces _ _ _)
    (dbSub_trans _ _ _ (phase1_table_dbSub ifaces _ _ _) (phase1_table_dbSub ifaces db _ _))

theorem phase1_table_establish_port (ifaces : List PyStr) (db : DB) (hwf : wfDB db) :
    (∀ r ∈ (phase1_table ifaces db (str "Port") (str "del-port")).2.port, r ∈ db.port) ∧
    (∀ r ∈ (phase1_table ifaces db (str "Port") (str "del-port")).2.bridge, r ∈ db.bridge) ∧
    (∀ r ∈ (phase1_table ifaces db (str "Port") (str "del-port")).2.interface,
      r ∈ db.interface) ∧
    (∀ r ∈ (phase1_table ifaces db (str "Port") (str "del-port")).2.port,
      rowClean1 ifaces r) := by
  have hlines : pySplitlines (listingText db (str "Port")) = db.port.map serializeLine := by
    rw [listing_lines db (str "Port") (by rw [tableRows_port]; exact hwf.1) (Or.inl rfl),
        tableRows_port]
  have hmain := phase1_lines_establish ifaces (str "Port") (str "del-port") DB.port
    (fun db2 l r hr => (phase1_line_mono db2 ifaces _ _ l).1 r hr)
    (fun db2 l h1 h2 => phase1_line_kill_port db2 ifaces l h1 h2)
    (pySplitlines (listingText db (str "Port"))) db hwf.1
    (by
      intro r hr hsub
      rw [hlines]
      exact Or.inl (List.mem_map_of_mem serializeLine hr))
  exact ⟨hmain.1,
    phase1_lines_mono ifaces _ _ DB.bridge
      (fun db2 l r hr => (phase1_line_mono db2 ifaces _ _ l).2.1 r hr) _ db,
    phase1_lines_mono ifaces _ _ DB.interface
      (fun db2 l r hr => (phase1_line_mono db2 ifaces _ _ l).2.2 r hr) _ db,
    fun r hr => hmain.2 r hr⟩

theorem phase1_table_establish_bridge (ifaces : List PyStr) (db : DB) (hwf : wfDB db) :
    (∀ r ∈ (phase1_table ifaces db (str "Bridge") (str "del-br")).2.port, r ∈ db.port) ∧
    (∀ r ∈ (phase1_table ifaces db (str "Bridge") (str "del-br")).2.bridge,
      r ∈ db.bridge) ∧
    (∀ r ∈ (phase1_table ifaces db (str "Bridge") (str "del-br")).2.interface,
      r ∈ db.interface) ∧
    (∀ r ∈ (phase1_table ifaces db (str "Bridge") (str "del-br")).2.bridge,
      rowClean1 ifaces r) := by
  have hlines : pySplitlines (listingText db (str "Bridge")) = db.bridge.map serializeLine := by
    rw [listing_lines db (str "Bridge") (by rw [tableRows_bridge]; exact hwf.2.1)
      (Or.inr (Or.inl rfl)), tableRows_bridge]
  have hmain := phase1_lines_establish ifaces (str "Bridge") (str "del-br") DB.bridge
    (fun db2 l r hr => (phase1_line_mono db2 ifaces _ _ l).2.1 r hr)
    (fun db2 l h1 h2 => phase1_line_kill_bridge db2 ifaces l h1 h2)
    (pySplitlines (listingText db (str "Bridge"))) db hwf.2.1
    (by
      intro r hr hsub
      rw [hlines]
      exact Or.inl (List.mem_map_of_mem serializeLine hr))
  exact ⟨phase1_lines_mono ifaces _ _ DB.port
      (fun db2 l r hr => (phase1_line_mono db2 ifaces _ _ l).1 r hr) _ db,
    hmain.1,
    phase1_lines_mono ifaces _ _ DB.interface
      (fun db2 l r hr => (phase1_line_mono db2 ifaces _ _ l).2.2 r hr) _ db,
    fun r hr => hmain.2 r hr⟩

theorem phase1_table_establish_interface (ifaces : List PyStr) (db : DB) (hwf : wfDB db) :
    (∀ r ∈ (phase1_table ifaces db (str "Interface") (str "del-br")).2.port, r ∈ db.port) ∧
    (∀ r ∈ (phase1_table ifaces db (str "Interface") (str "del-br")).2.bridge,
      r ∈ db.bridge) ∧
    (∀ r ∈ (phase1_table ifaces db (str "Interface") (str "del-br")).2.interface,
      r ∈ db.interface) ∧
    (∀ r ∈ (phase1_table ifaces db (str "Interface") (str "del-br")).2.interface,
      rowClean1 ifaces r) := by
  have hlines : pySplitlines (listingText db (str "Interface")) =
      db.interface.map serializeLine := by
    rw [listing_lines db (str "Interface") (by rw [tableRows_interface]; exact hwf.2.2.1)
      (Or.inr (Or.inr (Or.inl rfl))), tableRows_interface]
  have hmain := phase1_lines_establish ifaces (str "Interface") (str "del-br") DB.interface
    (fun db2 l r hr => (phase1_line_mono db2 ifaces _ _ l).2.2 r hr)
    (fun db2 l h1 h2 => phase1_line_kill_interface db2 ifaces l h1 h2)
    (pySplitlines (listingText db (str "Interface"))) db hwf.2.2.1
    (by
      intro r hr hsub
      rw [hlines]
      exact Or.inl (List.mem_map_of_mem serializeLine hr))
  exact ⟨phase1_lines_mono ifaces _ _ DB.port
      (fun db2 l r hr => (phase1_line_mono db2 ifaces _ _ l).1 r hr) _ db,
    phase1_lines_mono ifaces _ _ DB.bridge
      (fun db2 l r hr => (phase1_line_mono db2 ifaces _ _ l).2.1 r hr) _ db,
    hmain.1,
    fun r hr => hmain.2 r hr⟩

theorem phase1_establish (ifaces : List PyStr) (db : DB) (hwf : wfDB db) :
    (∀ r ∈ (phase1 ifaces db).2.port, rowClean1 ifaces r) ∧
    (∀ r ∈ (phase1 ifaces db).2.bridge, rowClean1 ifaces r) ∧
    (∀ r ∈ (phase1 ifaces db).2.interface, rowClean1 ifaces r) ∧
    wfDB (phase1 ifaces db).2 := by
  have hwf1 : wfDB (phase1_table ifaces db (str "Port") (str "del-port")).2 :=
    wfDB_of_dbSub _ db (phase1_table_dbSub ifaces db _ _) hwf
  have hwf2 : wfDB (phase1_table ifaces
      (phase1_table ifaces db (str "Port") (str "del-port")).2
      (str "Bridge") (str "del-br")).2 :=
    wfDB_of_dbSub _ _ (phase1_table_dbSub ifaces _ _ _) hwf1
  have h1 := phase1_table_establish_port ifaces db hwf
  have h2 := phase1_table_establish_bridge ifaces
    (phase1_table ifaces db (str "Port") (str "del-port")).2 hwf1
  have h3 := phase1_table_establish_interface ifaces
    (phase1_table ifaces (phase1_table ifaces db (str "Port") (str "del-port")).2
      (str "Bridge") (str "del-br")).2 hwf2
  have hfin : (phase1 ifaces db).2 =
      (phase1_table ifaces (phase1_table ifaces
        (phase1_table ifaces db (str "Port") (str "del-port")).2
        (str "Bridge") (str "del-br")).2 (str "Interface") (str "del-br")).2 := by
    simp only [phase1]
  refine ⟨?_, ?_, ?_, ?_⟩
  · intro r hr
    rw [hfin] at hr
    exact h1.2.2.2 r (h2.1 r (h3.1 r hr))
  · intro r hr
    rw [hfin] at hr
    exact h2.2.2.2 r (h3.2.1 r hr)
  · intro r hr
    rw [hfin] at hr
    exact h3.2.2.2 r hr
  · rw [hfin]
    exact wfDB_of_dbSub _ _ (phase1_table_dbSub ifaces _ _ _) hwf2

/-! ### Phase-1 on a clean database is query-only -/

theorem phase1_line_clean_nil (db : DB) (ifaces : List PyStr) (tname tdel : PyStr)
    (r : Row) (hwfr : wfRow r = true) (hc : rowClean1 ifaces r) :
    phase1_line db ifaces tname tdel (serializeLine r) = [] := by
  simp only [phase1_line]
  by_cases h1 : subList (str "netplan=true") (serializeLine r) = true
  · rw [if_pos h1, line_head r hwfr, if_pos (hc h1)]
  · rw [if_neg h1]

theorem phase1_lines_nil (ifaces : List PyStr) (tname tdel : PyStr) :
    ∀ ls, (∀ db2 l, l ∈ ls → phase1_line db2 ifaces tname tdel l = []) →
    ∀ db, phase1_lines ifaces tname tdel db ls = ([], db) := by
  intro ls
  induction ls with
  | nil => intro _ db; rfl
  | cons l ls ih =>
    intro h db
    have hl : phase1_line db ifaces tname tdel l = [] := h db l (List.mem_cons_self l ls)
    have hrest := ih (fun db2 l2 hl2 => h db2 l2 (List.mem_cons_of_mem l hl2)) db
    simp only [phase1_lines, hl]
    rw [show applyCmds db [] = db from rfl, hrest]
    rfl

theorem phase1_table_quiet (ifaces : List PyStr) (db : DB) (tname tdel : PyStr)
    (fld : DB → List Row)
    (hfld : tableRows db tname = fld db)
    (ht : tname = str "Port" ∨ tname = str "Bridge" ∨ tname = str "Interface" ∨
      tname = str "Controller")
    (hwf : ∀ r ∈ fld db, wfRow r = true)
    (hc : ∀ r ∈ fld db, rowClean1 ifaces r) :
    phase1_table ifaces db tname tdel =
      ([Cmd.output (listCmd (str "name,external-ids") tname)], db) := by
  have hlines : pySplitlines (listingText db tname) = (fld db).map serializeLine := by
    rw [listing_lines db tname (by rw [hfld]; exact hwf) ht, hfld]
  have hnil : ∀ db2 l, l ∈ (fld db).map serializeLine →
      phase1_line db2 ifaces tname tdel l = [] := by
    intro db2 l hl
    rcases List.mem_map.mp hl with ⟨r, hr, rfl⟩
    exact phase1_line_clean_nil db2 ifaces tname tdel r (hwf r hr) (hc r hr)
  simp only [phase1_table, hlines]
  rw [phase1_lines_nil ifaces tname tdel _ hnil db]

theorem phase1_quiet (ifaces : List PyStr) (db : DB) (hwf : wfDB db)
    (hcp : ∀ r ∈ db.port, rowClean1 ifaces r)
    (hcb : ∀ r ∈ db.bridge, rowClean1 ifaces r)
    (hci : ∀ r ∈ db.interface, rowClean1 ifaces r) :
    phase1 ifaces db =
      ([Cmd.output (listCmd (str "name,external-ids") (str "Port")),
        Cmd.output (listCmd (str "name,external-ids") (str "Bridge")),
        Cmd.output (listCmd (str "name,external-ids") (str "Interface"))], db) := by
  have hp := phase1_table_quiet ifaces db (str "Port") (str "del-port") DB.port
    (tableRows_port db) (Or.inl rfl) hwf.1 hcp
  have hb := phase1_table_quiet ifaces db (str "Bridge") (str "del-br") DB.bridge
    (tableRows_bridge db) (Or.inr (Or.inl rfl)) hwf.2.1 hcb
  have hi := phase1_table_quiet ifaces db (str "Interface") (str "del-br") DB.interface
    (tableRows_interface db) (Or.inr (Or.inr (Or.inl rfl))) hwf.2.2.1 hci
  simp only [phase1, hp, hb, hi]
  rfl

/-! ### Phase-2 analysis: refinement plumbing -/

theorem phase2_entries_dbSub (t iface : PyStr) :
    ∀ es db, dbSub (phase2_entries t iface db es).2.2 db := by
  intro es
  induction es with
  | nil => intro db; exact dbSub_refl db
  | cons e es ih =>
    intro db
    rcases hcall : phase2_entry db t iface e with ⟨err?, cs⟩
    cases err? with
    | some err =>
      simp only [phase2_entries, hcall]
      exact applyCmds_dbSub cs db
    | none =>
      simp only [phase2_entries, hcall]
      exact dbSub_trans _ _ _ (ih (applyCmds db cs)) (applyCmds_dbSub cs db)

theorem phase2_line_dbSub (db : DB) (t l : PyStr) : dbSub (phase2_line db t l).2.2 db := by
  rw [phase2_line]
  split
  · split
    · exact phase2_entries_dbSub t (str ".") _ db
    · split
      · exact phase2_entries_dbSub t _ _ db
      · exact dbSub_refl db
  · exact dbSub_refl db

theorem phase2_lines_dbSub (t : PyStr) :
    ∀ ls db, dbSub (phase2_lines t db ls).2.2 db := by
  intro ls
  induction ls with
  | nil => intro db; exact dbSub_refl db
  | cons l ls ih =>
    intro db
    rcases hl : phase2_line db t l with ⟨err?, cs, db2⟩
    have hsubl : dbSub db2 db := by
      have := phase2_line_dbSub db t l
      rw [hl] at this
      exact this
    cases err? with
    | some err =>
      simp only [phase2_lines, hl]
      exact hsubl
    | none =>
      simp only [phase2_lines, hl]
      exact dbSub_trans _ _ _ (ih db2) hsubl

theorem phase2_table_dbSub (db : DB) (t : PyStr) : dbSub (phase2_table db t).2.2 db :=
  phase2_lines_dbSub t _ db

theorem phase2_tables_dbSub : ∀ ts db, dbSub (phase2_tables db ts).2.2 db := by
  intro ts
  induction ts with
  | nil => intro db; exact dbSub_refl db
  | cons t ts ih =>
    intro db
    rcases ht : phase2_table db t with ⟨err?, cs, db2⟩
    have hsubt : dbSub db2 db := by
      have := phase2_table_dbSub db t
      rw [ht] at this
      exact this
    cases err? with
    | some err =>
      simp only [phase2_tables, ht]
      exact hsubt
    | none =>
      simp only [phase2_tables, ht]
      exact dbSub_trans _ _ _ (ih db2) hsubt

/-! ### Phase-2 analysis: the tag removal kills the key -/

theorem clear_setting_none_decomp (db : DB) (type iface setting value : PyStr)
    (cs : List Cmd) (h : clear_setting db type iface setting value = (none, cs)) :
    ∃ cs0, cs = cs0 ++ [Cmd.call [OVS_VSCTL_PATH, str "remove", type, iface,
      str "external-ids", setting]] := by
  rcases hg : (pySplitC '/' 2 setting).get? 1 with _ | col
  · simp only [clear_setting, hg] at h
    exact absurd h (by simp)
  · simp only [clear_setting, hg] at h
    rcases hx : (if col = str "global" ∧ 2 < (pySplitC '/' 2 setting).length then
        _del_global db type iface ((pySplitC '/' 2 setting).getD 2 []) value
      else if 2 < (pySplitC '/' 2 setting).length then
        (none, _del_dict type iface col ((pySplitC '/' 2 setting).getD 2 []) value)
      else
        (none, _del_col type iface col value)) with ⟨e, cs0⟩
    rw [hx] at h
    cases e with
    | some e2 =>
      rw [finishTag_some] at h
      exact absurd (congrArg Prod.fst h) (by simp)
    | none =>
      rw [finishTag_none] at h
      exact ⟨cs0, (congrArg Prod.snd h).symm⟩

theorem removeArgKeeps_bare (k : PyStr) (hk : containsC '=' k = false)
    (kv : PyStr × PyStr) : removeArgKeeps k kv = true ↔ kv.1 ≠ k := by
  rw [removeArgKeeps, if_neg (by rw [hk]; simp)]
  simp

theorem applyCmds_append_one (db : DB) (cs0 : List Cmd) (c : Cmd) :
    applyCmds db (cs0 ++ [c]) = applyCmd (applyCmds db cs0) c := by
  rw [applyCmds, List.foldl_append]
  rfl

theorem applyTag_kill_named (db : DB) (t n k : PyStr) (hk : containsC '=' k = false)
    (fld : DB → List Row)
    (hupd : ∀ (db2 : DB) (f : List (PyStr × PyStr) → List (PyStr × PyStr)),
      fld (updExtids db2 t n f) = updTable (fld db2) n f) :
    tableNoKey (fld (applyCall db [OVS_VSCTL_PATH, str "remove", t, n,
      str "external-ids", k])) n k := by
  rw [applyCall_remove_eq, if_pos rfl, hupd]
  intro r hr hname kv hkv
  rw [updTable, List.mem_map] at hr
  rcases hr with ⟨r0, hr0, rfl⟩
  by_cases hn : r0.name = n
  · rw [if_pos hn] at hkv
    exact (removeArgKeeps_bare k hk kv).mp (List.mem_filter.mp hkv).2
  · rw [if_neg hn] at hname
    exact absurd hname hn

theorem applyTag_kill_ovs (db : DB) (n k : PyStr) (hk : containsC '=' k = false) :
    ∀ kv ∈ (applyCall db [OVS_VSCTL_PATH, str "remove", str "Open_vSwitch", n,
      str "external-ids", k]).ovs, kv.1 ≠ k := by
  rw [applyCall_remove_eq, if_pos rfl, updExtids_ovs_eq]
  intro kv hkv
  exact (removeArgKeeps_bare k hk kv).mp (List.mem_filter.mp hkv).2

theorem tableNoKey_of_tableSub (a b : List Row) (n k : PyStr) (hsub : tableSub a b)
    (h : tableNoKey b n k) : tableNoKey a n k := by
  intro r hr hname kv hkv
  rcases hsub r hr with ⟨r2, hr2, hs⟩
  exact h r2 hr2 (hs.1 ▸ hname) kv (hs.2 kv hkv)

theorem containsC_false_of_not_mem (c : Char) (s : PyStr) (h : c ∉ s) :
    containsC c s = false := by
  cases hc : containsC c s
  · rfl
  · exact absurd ((containsC_iff c s).mp hc) h

theorem phase2_entry_np (db : DB) (t iface k v : PyStr)
    (hks : startsWithS npfx k = true) (hke : '=' ∉ k) :
    phase2_entry db t iface (k ++ '=' :: v) = clear_setting db t iface k v := by
  rw [phase2_entry]
  rw [show (str "netplan/") = npfx from rfl]
  have hg1 : startsWithS npfx (k ++ '=' :: v) = true := by
    rw [startsWithS, List.isPrefixOf_iff_prefix]
    exact (List.isPrefixOf_iff_prefix.mp hks).trans ⟨'=' :: v, rfl⟩
  have hg2 : containsC '=' (k ++ '=' :: v) = true :=
    (containsC_iff _ _).mpr (List.mem_append.mpr (Or.inr (List.mem_cons_self _ _)))
  rw [if_pos (by rw [hg1, hg2]; rfl), pySplitC_one_eq k v '=' hke]

theorem phase2_entries_kill (t iface : PyStr) (fld : DB → List Row)
    (hupd : ∀ (db2 : DB) (f : List (PyStr × PyStr) → List (PyStr × PyStr)),
      fld (updExtids db2 t iface f) = updTable (fld db2) iface f)
    (hfldSub : ∀ a b, dbSub a b → tableSub (fld a) (fld b)) :
    ∀ es db, (phase2_entries t iface db es).1 = none →
    ∀ e ∈ es, ∀ k v, e = k ++ '=' :: v → '=' ∉ k → startsWithS npfx k = true →
      tableNoKey (fld (phase2_entries t iface db es).2.2) iface k := by
  intro es
  induction es with
  | nil =>
    intro db _ e he
    exact absurd he (List.not_mem_nil e)
  | cons e0 es ih =>
    intro db h e he k v heq hke hks
    rcases hcall : phase2_entry db t iface e0 with ⟨err?, cs⟩
    cases err? with
    | some err =>
      simp only [phase2_entries, hcall] at h
      exact absurd h (by simp)
    | none =>
      have hres : (phase2_entries t iface db (e0 :: es)).2.2 =
          (phase2_entries t iface (applyCmds db cs) es).2.2 := by
        simp only [phase2_entries, hcall]
      have hrest1 : (phase2_entries t iface (applyCmds db cs) es).1 = none := by
        simp only [phase2_entries, hcall] at h
        exact h
      rcases List.mem_cons.mp he with rfl | hmem
      · subst heq
        have hclear : clear_setting db t iface k v = (none, cs) := by
          rw [← phase2_entry_np db t iface k v hks hke, hcall]
        rcases clear_setting_none_decomp db t iface k v cs hclear with ⟨cs0, rfl⟩
        have hkf : containsC '=' k = false := containsC_false_of_not_mem '=' k hke
        have hkill : tableNoKey (fld (applyCmds db (cs0 ++
            [Cmd.call [OVS_VSCTL_PATH, str "remove", t, iface,
              str "external-ids", k]]))) iface k := by
          rw [applyCmds_append_one]
          exact applyTag_kill_named (applyCmds db cs0) t iface k hkf fld hupd
        rw [hres]
        exact tableNoKey_of_tableSub _ _ _ _
          (hfldSub _ _ (phase2_entries_dbSub t iface es _)) hkill
      · rw [hres]
        exact ih (applyCmds db cs) hrest1 e hmem k v heq hke hks

theorem phase2_entries_kill_ovs (iface : PyStr) :
    ∀ es db, (phase2_entries (str "Open_vSwitch") iface db es).1 = none →
    ∀ e ∈ es, ∀ k v, e = k ++ '=' :: v → '=' ∉ k → startsWithS npfx k = true →
      ∀ kv ∈ (phase2_entries (str "Open_vSwitch") iface db es).2.2.ovs, kv.1 ≠ k := by
  intro es
  induction es with
  | nil =>
    intro db _ e he
    exact absurd he (List.not_mem_nil e)
  | cons e0 es ih =>
    intro db h e he k v heq hke hks
    rcases hcall : phase2_entry db (str "Open_vSwitch") iface e0 with ⟨err?, cs⟩
    cases err? with
    | some err =>
      simp only [phase2_entries, hcall] at h
      exact absurd h (by simp)
    | none =>
      have hres : (phase2_entries (str "Open_vSwitch") iface db (e0 :: es)).2.2 =
          (phase2_entries (str "Open_vSwitch") iface (applyCmds db cs) es).2.2 := by
        simp only [phase2_entries, hcall]
      have hrest1 : (phase2_entries (str "Open_vSwitch") iface (applyCmds db cs) es).1 =
          none := by
        simp only [phase2_entries, hcall] at h
        exact h
      rcases List.mem_cons.mp he with rfl | hmem
      · subst heq
        have hclear : clear_setting db (str "Open_vSwitch") iface k v = (none, cs) := by
          rw [← phase2_entry_np db (str "Open_vSwitch") iface k v hks hke, hcall]
        rcases clear_setting_none_decomp db (str "Open_vSwitch") iface k v cs hclear with
          ⟨cs0, rfl⟩
        have hkf : containsC '=' k = false := containsC_false_of_not_mem '=' k hke
        have hkill : ∀ kv ∈ (applyCmds db (cs0 ++
            [Cmd.call [OVS_VSCTL_PATH, str "remove", str "Open_vSwitch", iface,
              str "external-ids", k]])).ovs, kv.1 ≠ k := by
          rw [applyCmds_append_one]
          exact applyTag_kill_ovs (applyCmds db cs0) iface k hkf
        rw [hres]
        intro kv hkv
        exact hkill kv
          ((phase2_entries_dbSub (str "Open_vSwitch") iface es _).2.2.2.2.1 kv hkv)
      · rw [hres]
        exact ih (applyCmds db cs) hrest1 e hmem k v heq hke hks

theorem entryOf_space_free (kv : PyStr × PyStr) (hwf : wfPair kv = true) :
    ' ' ∉ entryOf kv := by
  rw [wfPair, Bool.and_eq_true] at hwf
  rw [entryOf]
  intro hm
  rcases List.mem_append.mp hm with hm | hm
  · exact goodStr_not_mem kv.1 ' ' hwf.1 (by decide) hm
  · rcases List.mem_cons.mp hm with h1 | hm2
    · exact absurd h1 (by decide)
    · exact goodStr_not_mem kv.2 ' ' hwf.2 (by decide) hm2

theorem entries_of_pairs (l : List (PyStr × PyStr))
    (hwf : ∀ kv ∈ l, wfPair kv = true) (hne : l ≠ []) :
    splitAllC ' ' (stripC '"' (('"' :: serializeExtids l) ++ ['"'])) =
      l.map entryOf := by
  have hquote : '"' ∉ serializeExtids l := quote_not_in_blob l hwf
  rw [show ('"' :: serializeExtids l) ++ ['"'] = '"' :: serializeExtids l ++ ['"'] from rfl,
      stripC_quotes _ hquote, serializeExtids]
  apply splitAllC_joinC
  · intro hcon
    exact hne (List.map_eq_nil.mp hcon)
  · intro p hp
    rcases List.mem_map.mp hp with ⟨kv, hkv, rfl⟩
    exact entryOf_space_free kv (hwf kv hkv)

theorem line_split (r : Row) (hwf : wfRow r = true) :
    pySplitC ',' 1 (serializeLine r) =
      [r.name, ('"' :: serializeExtids r.extids) ++ ['"']] := by
  rw [serializeLine_eq]
  exact pySplitC_one_eq r.name _ ','
    (goodStr_not_mem r.name ',' (wfRow_name r hwf) (by decide))

theorem phase2_line_row (db : DB) (t : PyStr) (r : Row) (hwf : wfRow r = true)
    (htO : ¬ t = str "Open_vSwitch")
    (hsub : subList npfx (serializeLine r) = true) :
    phase2_line db t (serializeLine r) =
      phase2_entries t r.name db
        (splitAllC ' ' (stripC '"' (('"' :: serializeExtids r.extids) ++ ['"']))) := by
  rw [phase2_line]
  rw [show (str "netplan/") = npfx from rfl]
  rw [if_pos hsub, if_neg htO, line_split r hwf]

theorem phase2_lines_kill (t : PyStr) (fld : DB → List Row)
    (hupd : ∀ (db2 : DB) (n : PyStr) (f : List (PyStr × PyStr) → List (PyStr × PyStr)),
      fld (updExtids db2 t n f) = updTable (fld db2) n f)
    (hfldSub : ∀ a b, dbSub a b → tableSub (fld a) (fld b))
    (htO : ¬ t = str "Open_vSwitch") :
    ∀ ls db, (phase2_lines t db ls).1 = none →
    ∀ r : Row, wfRow r = true → serializeLine r ∈ ls →
    ∀ kv ∈ r.extids, startsWithS npfx kv.1 = true →
      tableNoKey (fld (phase2_lines t db ls).2.2) r.name kv.1 := by
  intro ls
  induction ls with
  | nil =>
    intro db _ r _ hmem
    exact absurd hmem (List.not_mem_nil _)
  | cons l ls ih =>
    intro db h r hwfr hmem kv hkv hks
    rcases hl : phase2_line db t l with ⟨err?, cs, db2⟩
    cases err? with
    | some err =>
      simp only [phase2_lines, hl] at h
      exact absurd h (by simp)
    | none =>
      have hres : (phase2_lines t db (l :: ls)).2.2 = (phase2_lines t db2 ls).2.2 := by
        simp only [phase2_lines, hl]
      have hrest1 : (phase2_lines t db2 ls).1 = none := by
        simp only [phase2_lines, hl] at h
        exact h
      rcases List.mem_cons.mp hmem with heq | hmem2
      · have hsub : subList npfx (serializeLine r) = true :=
          np_key_sub_line r kv hkv hks
        have hline := phase2_line_row db t r hwfr htO hsub
        rw [← heq, hline] at hl
        have hpairswf := wfRow_pairs_wf r hwfr
        have hkvwf : wfPair kv = true := hpairswf kv hkv
        have hk1 : goodStr kv.1 = true := by
          rw [wfPair, Bool.and_eq_true] at hkvwf
          exact hkvwf.1
        have hne : r.extids ≠ [] := by
          intro hcon
          rw [hcon] at hkv
          exact List.not_mem_nil kv hkv
        rw [entries_of_pairs r.extids hpairswf hne] at hl
        have hfst : (phase2_entries t r.name db (r.extids.map entryOf)).1 = none := by
          rw [hl]
        have hsnd : (phase2_entries t r.name db (r.extids.map entryOf)).2.2 = db2 := by
          rw [hl]
        have hkill := phase2_entries_kill t r.name fld (fun db3 f => hupd db3 r.name f)
          hfldSub (r.extids.map entryOf) db hfst
          (entryOf kv) (List.mem_map_of_mem entryOf hkv) kv.1 kv.2 rfl
          (goodStr_not_mem kv.1 '=' hk1 (by decide)) hks
        rw [hsnd] at hkill
        rw [hres]
        exact tableNoKey_of_tableSub _ _ _ _
          (hfldSub _ _ (phase2_lines_dbSub t ls db2)) hkill
      · rw [hres]
        exact ih db2 hrest1 r hwfr hmem2 kv hkv hks

theorem phase2_table_fst (db : DB) (t : PyStr) :
    (phase2_table db t).1 = (phase2_lines t db (pySplitlines (listingText db t))).1 := by
  simp only [phase2_table]

theorem phase2_table_snd (db : DB) (t : PyStr) :
    (phase2_table db t).2.2 =
      (phase2_lines t db (pySplitlines (listingText db t))).2.2 := by
  simp only [phase2_table]

theorem phase2_table_clean2 (db : DB) (t : PyStr) (fld : DB → List Row)
    (hfldR : ∀ db2, tableRows db2 t = fld db2)
    (ht : t = str "Port" ∨ t = str "Bridge" ∨ t = str "Interface" ∨ t = str "Controller")
    (hupd : ∀ (db2 : DB) (n : PyStr) (f : List (PyStr × PyStr) → List (PyStr × PyStr)),
      fld (updExtids db2 t n f) = updTable (fld db2) n f)
    (hfldSub : ∀ a b, dbSub a b → tableSub (fld a) (fld b))
    (hwfF : ∀ r ∈ fld db, wfRow r = true)
    (h : (phase2_table db t).1 = none) :
    ∀ r2 ∈ fld (phase2_table db t).2.2, rowClean2 r2 := by
  have htO : ¬ t = str "Open_vSwitch" := by
    rcases ht with rfl | rfl | rfl | rfl <;> decide
  have hlines : pySplitlines (listingText db t) = (fld db).map serializeLine := by
    rw [listing_lines db t (by rw [hfldR]; exact hwfF) ht, hfldR]
  intro r2 hr2 kv hkv
  cases hks : startsWithS npfx kv.1 with
  | false => rfl
  | true =>
    exfalso
    rcases hfldSub _ _ (phase2_table_dbSub db t) r2 hr2 with ⟨r, hr, hsub⟩
    have hkv0 : kv ∈ r.extids := hsub.2 kv hkv
    have hwfr : wfRow r = true := hwfF r hr
    rw [phase2_table_fst] at h
    have hkill := phase2_lines_kill t fld hupd hfldSub htO
      (pySplitlines (listingText db t)) db h r hwfr
      (by rw [hlines]; exact List.mem_map_of_mem serializeLine hr) kv hkv0 hks
    rw [phase2_table_snd] at hr2
    exact hkill r2 hr2 hsub.1 kv hkv rfl

theorem np_key_sub_ovsline (pairs : List (PyStr × PyStr)) (kv : PyStr × PyStr)
    (hm : kv ∈ pairs) (hk : startsWithS npfx kv.1 = true) :
    subList npfx (serializeOvsLine pairs) = true := by
  rw [subList_iff]
  have h1 : npfx <+: kv.1 := List.isPrefixOf_iff_prefix.mp hk
  have h2 : kv.1 <+: entryOf kv := ⟨'=' :: kv.2, rfl⟩
  have h3 : entryOf kv <:+: serializeExtids pairs := by
    rw [serializeExtids]
    exact mem_joinC_infix ' ' (pairs.map entryOf) (entryOf kv)
      (List.mem_map_of_mem entryOf hm)
  have h4 : serializeExtids pairs <:+: serializeOvsLine pairs :=
    ⟨['"'], ['"'], by simp [serializeOvsLine]⟩
  exact ((h1.trans h2).isInfix.trans h3).trans h4

theorem phase2_line_ovs (db : DB) (l : PyStr) (hsub : subList npfx l = true) :
    phase2_line db (str "Open_vSwitch") l =
      phase2_entries (str "Open_vSwitch") (str ".") db (splitAllC ' ' (stripC '"' l)) := by
  rw [phase2_line]
  rw [show (str "netplan/") = npfx from rfl]
  rw [if_pos hsub, if_pos rfl]

theorem phase2_table_clean2_ovs (db : DB) (hwfp : ∀ kv ∈ db.ovs, wfPair kv = true)
    (h : (phase2_table db (str "Open_vSwitch")).1 = none) :
    pairsClean2 (phase2_table db (str "Open_vSwitch")).2.2.ovs := by
  have hlisting : pySplitlines (listingText db (str "Open_vSwitch")) =
      [serializeOvsLine db.ovs] := listing_lines_ovs db hwfp
  intro kv2 hkv2
  cases hks : startsWithS npfx kv2.1 with
  | false => rfl
  | true =>
    exfalso
    have hanc : kv2 ∈ db.ovs :=
      (phase2_table_dbSub db (str "Open_vSwitch")).2.2.2.2.1 kv2 hkv2
    have hsubl : subList npfx (serializeOvsLine db.ovs) = true :=
      np_key_sub_ovsline db.ovs kv2 hanc hks
    have hne : db.ovs ≠ [] := by
      intro hcon
      rw [hcon] at hanc
      exact List.not_mem_nil kv2 hanc
    have hline := phase2_line_ovs db (serializeOvsLine db.ovs) hsubl
    have hovseq : serializeOvsLine db.ovs =
        ('"' :: serializeExtids db.ovs) ++ ['"'] := rfl
    have hentries : splitAllC ' ' (stripC '"' (serializeOvsLine db.ovs)) =
        db.ovs.map entryOf := by
      rw [hovseq]
      exact entries_of_pairs db.ovs hwfp hne
    rw [hentries] at hline
    rw [phase2_table_fst, hlisting] at h
    rw [phase2_table_snd, hlisting] at hkv2
    rcases hl : phase2_line db (str "Open_vSwitch") (serializeOvsLine db.ovs) with
      ⟨err?, cs, db2⟩
    cases err? with
    | some err =>
      simp only [phase2_lines, hl] at h
      exact absurd h (by simp)
    | none =>
      have hfinal : (phase2_lines (str "Open_vSwitch") db
          [serializeOvsLine db.ovs]).2.2 = db2 := by
        simp only [phase2_lines, hl]
      rw [hline] at hl
      have hfst : (phase2_entries (str "Open_vSwitch") (str ".") db
          (db.ovs.map entryOf)).1 = none := by rw [hl]
      have hsnd : (phase2_entries (str "Open_vSwitch") (str ".") db
          (db.ovs.map entryOf)).2.2 = db2 := by rw [hl]
      have hk2wf : wfPair kv2 = true := hwfp kv2 hanc
      have hk1 : goodStr kv2.1 = true := by
        rw [wfPair, Bool.and_eq_true] at hk2wf
        exact hk2wf.1
      have hkill := phase2_entries_kill_ovs (str ".") (db.ovs.map entryOf) db hfst
        (entryOf kv2) (List.mem_map_of_mem entryOf hanc) kv2.1 kv2.2 rfl
        (goodStr_not_mem kv2.1 '=' hk1 (by decide)) hks
      rw [hsnd] at hkill
      rw [hfinal] at hkv2
      exact hkill kv2 hkv2 rfl

theorem tableClean2_of_tableSub (a b : List Row) (hsub : tableSub a b)
    (h : ∀ r ∈ b, rowClean2 r) : ∀ r ∈ a, rowClean2 r := by
  intro r hr
  rcases hsub r hr with ⟨r2, hr2, hs⟩
  exact rowClean2_of_rowSub r r2 hs (h r2 hr2)

theorem pairsClean2_of_sub (a b : List (PyStr × PyStr)) (hsub : ∀ kv ∈ a, kv ∈ b)
    (h : pairsClean2 b) : pairsClean2 a :=
  fun kv hkv => h kv (hsub kv hkv)

theorem phase2_table_clean2_port (db : DB) (hwf : wfDB db) (c : List Cmd) (db2 : DB)
    (h1 : phase2_table db (str "Port") = (none, c, db2)) :
    ∀ r ∈ db2.port, rowClean2 r := by
  have := phase2_table_clean2 db (str "Port") DB.port (fun db3 => tableRows_port db3)
    (Or.inl rfl) (fun db3 n f => by rw [updExtids_port]) (fun a b hsub => hsub.1)
    hwf.1 (by rw [h1])
  rw [h1] at this
  exact this

theorem phase2_table_clean2_bridge (db : DB) (hwf : wfDB db) (c : List Cmd) (db2 : DB)
    (h1 : phase2_table db (str "Bridge") = (none, c, db2)) :
    ∀ r ∈ db2.bridge, rowClean2 r := by
  have := phase2_table_clean2 db (str "Bridge") DB.bridge (fun db3 => tableRows_bridge db3)
    (Or.inr (Or.inl rfl)) (fun db3 n f => by rw [updExtids_bridge])
    (fun a b hsub => hsub.2.1) hwf.2.1 (by rw [h1])
  rw [h1] at this
  exact this

theorem phase2_table_clean2_interface (db : DB) (hwf : wfDB db) (c : List Cmd) (db2 : DB)
    (h1 : phase2_table db (str "Interface") = (none, c, db2)) :
    ∀ r ∈ db2.interface, rowClean2 r := by
  have := phase2_table_clean2 db (str "Interface") DB.interface
    (fun db3 => tableRows_interface db3) (Or.inr (Or.inr (Or.inl rfl)))
    (fun db3 n f => by rw [updExtids_interface]) (fun a b hsub => hsub.2.2.1)
    hwf.2.2.1 (by rw [h1])
  rw [h1] at this
  exact this

theorem phase2_table_clean2_controller (db : DB) (hwf : wfDB db) (c : List Cmd) (db2 : DB)
    (h1 : phase2_table db (str "Controller") = (none, c, db2)) :
    ∀ r ∈ db2.controller, rowClean2 r := by
  have := phase2_table_clean2 db (str "Controller") DB.controller
    (fun db3 => tableRows_controller db3) (Or.inr (Or.inr (Or.inr rfl)))
    (fun db3 n f => by rw [updExtids_controller]) (fun a b hsub => hsub.2.2.2.1)
    hwf.2.2.2.1 (by rw [h1])
  rw [h1] at this
  exact this

theorem phase2_table_clean2_ovs_eq (db : DB) (hwf : wfDB db) (c : List Cmd) (db2 : DB)
    (h1 : phase2_table db (str "Open_vSwitch") = (none, c, db2)) :
    pairsClean2 db2.ovs := by
  have := phase2_table_clean2_ovs db hwf.2.2.2.2 (by rw [h1])
  rw [h1] at this
  exact this

theorem phase2_table_sub_eq (db : DB) (t : PyStr) (e : Option Err) (c : List Cmd)
    (db2 : DB) (h1 : phase2_table db t = (e, c, db2)) : dbSub db2 db := by
  have := phase2_table_dbSub db t
  rw [h1] at this
  exact this

theorem phase2_run (db : DB) (hwf : wfDB db)
    (h : (phase2_tables db TABLES).1 = none) :
    wfDB (phase2_tables db TABLES).2.2 ∧
    (∀ r ∈ (phase2_tables db TABLES).2.2.port, rowClean2 r) ∧
    (∀ r ∈ (phase2_tables db TABLES).2.2.bridge, rowClean2 r) ∧
    (∀ r ∈ (phase2_tables db TABLES).2.2.interface, rowClean2 r) ∧
    (∀ r ∈ (phase2_tables db TABLES).2.2.controller, rowClean2 r) ∧
    pairsClean2 (phase2_tables db TABLES).2.2.ovs := by
  simp only [TABLES] at h ⊢
  rcases h1 : phase2_table db (str "Port") with ⟨e1, c1, db1⟩
  cases e1 with
  | some err =>
    simp only [phase2_tables, h1] at h
    exact absurd h (by simp)
  | none =>
  have hsub1 : dbSub db1 db := phase2_table_sub_eq db _ _ _ _ h1
  have hwf1 : wfDB db1 := wfDB_of_dbSub db1 db hsub1 hwf
  have hcp : ∀ r ∈ db1.port, rowClean2 r := phase2_table_clean2_port db hwf c1 db1 h1
  simp only [phase2_tables, h1] at h ⊢
  rcases h2 : phase2_table db1 (str "Bridge") with ⟨e2, c2, db2⟩
  cases e2 with
  | some err =>
    simp only [phase2_tables, h2] at h
    exact absurd h (by simp)
  | none =>
  have hsub2 : dbSub db2 db1 := phase2_table_sub_eq db1 _ _ _ _ h2
  have hwf2 : wfDB db2 := wfDB_of_dbSub db2 db1 hsub2 hwf1
  have hcb : ∀ r ∈ db2.bridge, rowClean2 r := phase2_table_clean2_bridge db1 hwf1 c2 db2 h2
  simp only [phase2_tables, h2] at h ⊢
  rcases h3 : phase2_table db2 (str "Interface") with ⟨e3, c3, db3⟩
  cases e3 with
  | some err =>
    simp only [phase2_tables, h3] at h
    exact absurd h (by simp)
  | none =>
  have hsub3 : dbSub db3 db2 := phase2_table_sub_eq db2 _ _ _ _ h3
  have hwf3 : wfDB db3 := wfDB_of_dbSub db3 db2 hsub3 hwf2
  have hci : ∀ r ∈ db3.interface, rowClean2 r :=
    phase2_table_clean2_interface db2 hwf2 c3 db3 h3
  simp only [phase2_tables, h3] at h ⊢
  rcases h4 : phase2_table db3 (str "Open_vSwitch") with ⟨e4, c4, db4⟩
  cases e4 with
  | some err =>
    simp only [phase2_tables, h4] at h
    exact absurd h (by simp)
  | none =>
  have hsub4 : dbSub db4 db3 := phase2_table_sub_eq db3 _ _ _ _ h4
  have hwf4 : wfDB db4 := wfDB_of_dbSub db4 db3 hsub4 hwf3
  have hco : pairsClean2 db4.ovs := phase2_table_clean2_ovs_eq db3 hwf3 c4 db4 h4
  simp only [phase2_tables, h4] at h ⊢
  rcases h5 : phase2_table db4 (str "Controller") with ⟨e5, c5, db5⟩
  cases e5 with
  | some err =>
    simp only [phase2_tables, h5] at h
    exact absurd h (by simp)
  | none =>
  have hsub5 : dbSub db5 db4 := phase2_table_sub_eq db4 _ _ _ _ h5
  have hwf5 : wfDB db5 := wfDB_of_dbSub db5 db4 hsub5 hwf4
  have hcc : ∀ r ∈ db5.controller, rowClean2 r :=
    phase2_table_clean2_controller db4 hwf4 c5 db5 h5
  simp only [phase2_tables, h5]
  refine ⟨hwf5, ?_, ?_, ?_, hcc, ?_⟩
  · exact tableClean2_of_tableSub _ _
      (tableSub_trans _ _ _ hsub5.1 (tableSub_trans _ _ _ hsub4.1
        (tableSub_trans _ _ _ hsub3.1 hsub2.1))) hcp
  · exact tableClean2_of_tableSub _ _
      (tableSub_trans _ _ _ hsub5.2.1 (tableSub_trans _ _ _ hsub4.2.1 hsub3.2.1)) hcb
  · exact tableClean2_of_tableSub _ _
      (tableSub_trans _ _ _ hsub5.2.2.1 hsub4.2.2.1) hci
  · exact pairsClean2_of_sub _ _ hsub5.2.2.2.2.1 hco

/-! ### Phase-2 on a clean database is query-only -/

theorem phase2_entry_not_np (db : DB) (t iface e : PyStr)
    (he : startsWithS npfx e = false) : phase2_entry db t iface e = (none, []) := by
  rw [phase2_entry]
  rw [show (str "netplan/") = npfx from rfl]
  rw [if_neg (by rw [he]; simp)]

theorem startsWith_entry (kv : PyStr × PyStr) (hke : '=' ∉ kv.1) :
    startsWithS npfx (entryOf kv) = startsWithS npfx kv.1 := by
  rw [startsWithS, startsWithS, Bool.eq_iff_iff, List.isPrefixOf_iff_prefix,
      List.isPrefixOf_iff_prefix]
  exact prefix_through_sep npfx '=' (by decide) kv.1 kv.2

theorem phase2_entries_clean (t iface : PyStr) :
    ∀ es db, (∀ e ∈ es, startsWithS npfx e = false) →
      phase2_entries t iface db es = (none, [], db) := by
  intro es
  induction es with
  | nil => intro db _; rfl
  | cons e es ih =>
    intro db h
    have he := phase2_entry_not_np db t iface e (h e (List.mem_cons_self e es))
    have hrest := ih db (fun e2 he2 => h e2 (List.mem_cons_of_mem e he2))
    simp only [phase2_entries, he]
    rw [show applyCmds db [] = db from rfl, hrest]
    rfl

theorem phase2_line_clean (db : DB) (t : PyStr) (r : Row) (hwf : wfRow r = true)
    (hcl : rowClean2 r) (htO : ¬ t = str "Open_vSwitch") :
    phase2_line db t (serializeLine r) = (none, [], db) := by
  by_cases hsub : subList npfx (serializeLine r) = true
  · rw [phase2_line_row db t r hwf htO hsub]
    by_cases hne : r.extids = []
    · have hent : splitAllC ' '
          (stripC '"' (('"' :: serializeExtids r.extids) ++ ['"'])) = [[]] := by
        rw [hne]
        decide
      rw [hent]
      exact phase2_entries_clean t r.name [[]] db
        (by
          intro e he2
          rcases List.mem_singleton.mp he2 with rfl
          decide)
    · rw [entries_of_pairs r.extids (wfRow_pairs_wf r hwf) hne]
      refine phase2_entries_clean t r.name _ db ?_
      intro e he2
      rcases List.mem_map.mp he2 with ⟨kv, hkv, rfl⟩
      have hke : '=' ∉ kv.1 := by
        have hwfp := wfRow_pairs_wf r hwf kv hkv
        rw [wfPair, Bool.and_eq_true] at hwfp
        exact goodStr_not_mem kv.1 '=' hwfp.1 (by decide)
      rw [startsWith_entry kv hke]
      exact hcl kv hkv
  · have hf : subList npfx (serializeLine r) = false := by
      cases h2 : subList npfx (serializeLine r)
      · rfl
      · exact absurd h2 hsub
    rw [phase2_line]
    rw [show (str "netplan/") = npfx from rfl]
    rw [if_neg (by rw [hf]; simp)]

theorem phase2_line_clean_ovs (db : DB) (hwfp : ∀ kv ∈ db.ovs, wfPair kv = true)
    (hcl : pairsClean2 db.ovs) :
    phase2_line db (str "Open_vSwitch") (serializeOvsLine db.ovs) = (none, [], db) := by
  by_cases hsub : subList npfx (serializeOvsLine db.ovs) = true
  · rw [phase2_line_ovs db _ hsub]
    by_cases hne : db.ovs = []
    · have hent : splitAllC ' ' (stripC '"' (serializeOvsLine db.ovs)) = [[]] := by
        rw [hne]
        decide
      rw [hent]
      exact phase2_entries_clean (str "Open_vSwitch") (str ".") [[]] db
        (by
          intro e he2
          rcases List.mem_singleton.mp he2 with rfl
          decide)
    · have hovseq : serializeOvsLine db.ovs =
          ('"' :: serializeExtids db.ovs) ++ ['"'] := rfl
      rw [show splitAllC ' ' (stripC '"' (serializeOvsLine db.ovs)) =
          db.ovs.map entryOf from by
        rw [hovseq]
        exact entries_of_pairs db.ovs hwfp hne]
      refine phase2_entries_clean (str "Open_vSwitch") (str ".") _ db ?_
      intro e he2
      rcases List.mem_map.mp he2 with ⟨kv, hkv, rfl⟩
      have hke : '=' ∉ kv.1 := by
        have hwfp2 := hwfp kv hkv
        rw [wfPair, Bool.and_eq_true] at hwfp2
        exact goodStr_not_mem kv.1 '=' hwfp2.1 (by decide)
      rw [startsWith_entry kv hke]
      exact hcl kv hkv
  · have hf : subList npfx (serializeOvsLine db.ovs) = false := by
      cases h2 : subList npfx (serializeOvsLine db.ovs)
      · rfl
      · exact absurd h2 hsub
    rw [phase2_line]
    rw [show (str "netplan/") = npfx from rfl]
    rw [if_neg (by rw [hf]; simp)]

theorem phase2_lines_clean (t : PyStr) :
    ∀ ls db, (∀ l ∈ ls, phase2_line db t l = (none, [], db)) →
      phase2_lines t db ls = (none, [], db) := by
  intro ls
  induction ls with
  | nil => intro db _; rfl
  | cons l ls ih =>
    intro db h
    have hl := h l (List.mem_cons_self l ls)
    have hrest := ih db (fun l2 hl2 => h l2 (List.mem_cons_of_mem l hl2))
    simp only [phase2_lines, hl]
    rw [hrest]
    rfl

theorem phase2_table_quiet (db : DB) (t : PyStr) (fld : DB → List Row)
    (hfldR : tableRows db t = fld db)
    (ht : t = str "Port" ∨ t = str "Bridge" ∨ t = str "Interface" ∨ t = str "Controller")
    (hwfF : ∀ r ∈ fld db, wfRow r = true)
    (hclF : ∀ r ∈ fld db, rowClean2 r) :
    phase2_table db t = (none, [Cmd.output (listCmd (colsFor t) t)], db) := by
  have htO : ¬ t = str "Open_vSwitch" := by
    rcases ht with rfl | rfl | rfl | rfl <;> decide
  have hlines : pySplitlines (listingText db t) = (fld db).map serializeLine := by
    rw [listing_lines db t (by rw [hfldR]; exact hwfF) ht, hfldR]
  have hnil : ∀ l ∈ (fld db).map serializeLine, phase2_line db t l = (none, [], db) := by
    intro l hl
    rcases List.mem_map.mp hl with ⟨r, hr, rfl⟩
    exact phase2_line_clean db t r (hwfF r hr) (hclF r hr) htO
  simp only [phase2_table, hlines]
  rw [phase2_lines_clean t _ db hnil]

theorem phase2_table_quiet_ovs (db : DB) (hwfp : ∀ kv ∈ db.ovs, wfPair kv = true)
    (hcl : pairsClean2 db.ovs) :
    phase2_table db (str "Open_vSwitch") =
      (none, [Cmd.output (listCmd (colsFor (str "Open_vSwitch"))
        (str "Open_vSwitch"))], db) := by
  have hlisting : pySplitlines (listingText db (str "Open_vSwitch")) =
      [serializeOvsLine db.ovs] := listing_lines_ovs db hwfp
  have hnil : ∀ l ∈ [serializeOvsLine db.ovs],
      phase2_line db (str "Open_vSwitch") l = (none, [], db) := by
    intro l hl
    rcases List.mem_singleton.mp hl with rfl
    exact phase2_line_clean_ovs db hwfp hcl
  simp only [phase2_table, hlisting]
  rw [phase2_lines_clean (str "Open_vSwitch") _ db hnil]

theorem phase2_quiet (db : DB) (hwf : wfDB db)
    (hcp : ∀ r ∈ db.port, rowClean2 r) (hcb : ∀ r ∈ db.bridge, rowClean2 r)
    (hci : ∀ r ∈ db.interface, rowClean2 r) (hcc : ∀ r ∈ db.controller, rowClean2 r)
    (hco : pairsClean2 db.ovs) :
    (phase2_tables db TABLES).1 = none ∧
    (phase2_tables db TABLES).2.2 = db ∧
    (∀ c ∈ (phase2_tables db TABLES).2.1, isMutating c = false) := by
  have hp := phase2_table_quiet db (str "Port") DB.port (tableRows_port db)
    (Or.inl rfl) hwf.1 hcp
  have hb := phase2_table_quiet db (str "Bridge") DB.bridge (tableRows_bridge db)
    (Or.inr (Or.inl rfl)) hwf.2.1 hcb
  have hi := phase2_table_quiet db (str "Interface") DB.interface (tableRows_interface db)
    (Or.inr (Or.inr (Or.inl rfl))) hwf.2.2.1 hci
  have ho := phase2_table_quiet_ovs db hwf.2.2.2.2 hco
  have hc := phase2_table_quiet db (str "Controller") DB.controller
    (tableRows_controller db) (Or.inr (Or.inr (Or.inr rfl))) hwf.2.2.2.1 hcc
  refine ⟨by simp only [TABLES, phase2_tables, hp, hb, hi, ho, hc],
    by simp only [TABLES, phase2_tables, hp, hb, hi, ho, hc], ?_⟩
  simp only [TABLES, phase2_tables, hp, hb, hi, ho, hc]
  intro c hc2
  simp only [List.mem_append, List.mem_singleton, List.mem_cons, List.not_mem_nil,
    or_false] at hc2
  rcases hc2 with rfl | rfl | rfl | rfl | rfl <;> rfl

/-! ### C5: idempotence of the reconciliation run -/

theorem tableClean1_of_tableSub (ifaces : List PyStr) (a b : List Row)
    (hsub : tableSub a b) (hwa : ∀ r ∈ a, wfRow r = true) (hwb : ∀ r ∈ b, wfRow r = true)
    (h : ∀ r ∈ b, rowClean1 ifaces r) : ∀ r ∈ a, rowClean1 ifaces r := by
  intro r hr
  rcases hsub r hr with ⟨r2, hr2, hs⟩
  exact rowClean1_of_rowSub ifaces r r2 hs (hwa r hr) (hwb r2 hr2) (h r2 hr2)

theorem apply_run_eq (netdefs : List (PyStr × PyStr)) (db : DB) :
    apply_ovs_cleanup true true netdefs db =
      ⟨(phase2_tables (phase1 (ovsIfaces netdefs) db).2 TABLES).1,
       (phase1 (ovsIfaces netdefs) db).1 ++
         (phase2_tables (phase1 (ovsIfaces netdefs) db).2 TABLES).2.1,
       (phase2_tables (phase1 (ovsIfaces netdefs) db).2 TABLES).2.2⟩ := by
  rw [apply_ovs_cleanup, if_neg (by simp), if_neg (by simp)]

theorem apply_run_err (netdefs : List (PyStr × PyStr)) (db : DB) :
    (apply_ovs_cleanup true true netdefs db).err =
      (phase2_tables (phase1 (ovsIfaces netdefs) db).2 TABLES).1 := by
  rw [apply_run_eq]

theorem apply_run_db (netdefs : List (PyStr × PyStr)) (db : DB) :
    (apply_ovs_cleanup true true netdefs db).db =
      (phase2_tables (phase1 (ovsIfaces netdefs) db).2 TABLES).2.2 := by
  rw [apply_run_eq]

theorem apply_run_trace (netdefs : List (PyStr × PyStr)) (db : DB) :
    (apply_ovs_cleanup true true netdefs db).trace =
      (phase1 (ovsIfaces netdefs) db).1 ++
        (phase2_tables (phase1 (ovsIfaces netdefs) db).2 TABLES).2.1 := by
  rw [apply_run_eq]

/-- C5: on a well-formed database, a reconciliation run that completes
without raising leaves a database on which an immediately repeated run
completes as well and issues not a single mutating command. -/
theorem apply_idempotent (netdefs : List (PyStr × PyStr)) (db : DB) (hwf : wfDB db)
    (h1 : (apply_ovs_cleanup true true netdefs db).err = none) :
    (apply_ovs_cleanup true true netdefs
      (apply_ovs_cleanup true true netdefs db).db).err = none ∧
    ∀ c ∈ (apply_ovs_cleanup true true netdefs
      (apply_ovs_cleanup true true netdefs db).db).trace, isMutating c = false := by
  rw [apply_run_err] at h1
  rw [apply_run_db]
  have hmid := phase1_establish (ovsIfaces netdefs) db hwf
  have hrun := phase2_run (phase1 (ovsIfaces netdefs) db).2 hmid.2.2.2 h1
  set d1 := (phase2_tables (phase1 (ovsIfaces netdefs) db).2 TABLES).2.2 with hd1
  have hsub2 : dbSub d1 (phase1 (ovsIfaces netdefs) db).2 :=
    phase2_tables_dbSub TABLES (phase1 (ovsIfaces netdefs) db).2
  have hwfd1 : wfDB d1 := hrun.1
  have hc1p : ∀ r ∈ d1.port, rowClean1 (ovsIfaces netdefs) r :=
    tableClean1_of_tableSub _ _ _ hsub2.1 hwfd1.1 hmid.2.2.2.1 hmid.1
  have hc1b : ∀ r ∈ d1.bridge, rowClean1 (ovsIfaces netdefs) r :=
    tableClean1_of_tableSub _ _ _ hsub2.2.1 hwfd1.2.1 hmid.2.2.2.2.1 hmid.2.1
  have hc1i : ∀ r ∈ d1.interface, rowClean1 (ovsIfaces netdefs) r :=
    tableClean1_of_tableSub _ _ _ hsub2.2.2.1 hwfd1.2.2.1 hmid.2.2.2.2.2.1 hmid.2.2.1
  have hq1 := phase1_quiet (ovsIfaces netdefs) d1 hwfd1 hc1p hc1b hc1i
  have hq2 := phase2_quiet d1 hwfd1 hrun.2.1 hrun.2.2.1 hrun.2.2.2.1
    hrun.2.2.2.2.1 hrun.2.2.2.2.2
  have hq1a : (phase1 (ovsIfaces netdefs) d1).1 =
      [Cmd.output (listCmd (str "name,external-ids") (str "Port")),
       Cmd.output (listCmd (str "name,external-ids") (str "Bridge")),
       Cmd.output (listCmd (str "name,external-ids") (str "Interface"))] := by
    rw [hq1]
  have hq1b : (phase1 (ovsIfaces netdefs) d1).2 = d1 := by
    rw [hq1]
  constructor
  · rw [apply_run_err, hq1b]
    exact hq2.1
  · intro c hc
    rw [apply_run_trace, hq1b, hq1a] at hc
    rcases List.mem_append.mp hc with hc1 | hc2
    · rcases List.mem_cons.mp hc1 with rfl | hc1
      · rfl
      rcases List.mem_cons.mp hc1 with rfl | hc1
      · rfl
      rcases List.mem_cons.mp hc1 with rfl | hc1
      · rfl
      · exact absurd hc1 (List.not_mem_nil c)
    · exact hq2.2.2 c hc2

/-- Closed witness for C5: the example database with a stale tagged port, a
surviving tagged bridge and a global tag runs clean the second time. -/
theorem apply_idempotent_witness :
    (apply_ovs_cleanup true true [(str "br0", str "OpenVSwitch")]
      (apply_ovs_cleanup true true [(str "br0", str "OpenVSwitch")] dbW).db).err = none ∧
    ∀ c ∈ (apply_ovs_cleanup true true [(str "br0", str "OpenVSwitch")]
      (apply_ovs_cleanup true true [(str "br0", str "OpenVSwitch")] dbW).db).trace,
      isMutating c = false :=
  apply_idempotent [(str "br0", str "OpenVSwitch")] dbW
    ⟨by decide, by decide, by decide, by decide, by decide⟩ (by decide)
